import Mathlib

/-!
Shallow embedding of the lopdf-table layout / wrapping / pagination /
content-emission core, together with proofs checking the natural-language
specification against it.

Modelling conventions:
* Rust `f32` values are modelled as exact rationals (`ℚ`); the spec's
  "within floating-point tolerance" becomes exact equality over `ℚ`.
* Rust `String` / `&str` values are modelled as `List Char` (Unicode
  scalar values); the UTF-8 byte representation is modelled explicitly
  where the source manipulates byte indices (`char_indices`, `split_at`).
* `usize` is `Nat`; `as usize` casts from `f32` truncate toward zero and
  saturate at zero for negative values.
* Error messages built with `format!` are dropped; only the error kind is
  kept, since no property depends on message text.
-/

namespace LopdfTable

/-! ## Constants (src/constants.rs) -/

def A4_WIDTH : ℚ := 595

def A4_HEIGHT : ℚ := 842

def LETTER_WIDTH : ℚ := 612

def DEFAULT_MARGIN : ℚ := 50

/-- `DEFAULT_CHAR_WIDTH_RATIO = 0.5` from constants.rs (renamed, keeping the value). -/
def defaultCharWidthFrac : ℚ := 1/2

/-- `DEFAULT_LINE_HEIGHT_MULTIPLIER = 1.2` from constants.rs. -/
def lineHeightMult : ℚ := 6/5

def MIN_COLUMN_WIDTH : ℚ := 20

def DEFAULT_PADDING : ℚ := 5

def DEFAULT_FONT_SIZE : ℚ := 10

/-! ## Character / whitespace model

Rust `char::is_whitespace` tests the Unicode `White_Space` property; the
full (stable) code-point list is reproduced here.
-/

/-- Unicode `White_Space` property, as used by Rust `char::is_whitespace`,
`str::split_whitespace` and `str::trim`. -/
def is_whitespace (c : Char) : Bool :=
  let v := c.toNat
  (0x09 ≤ v && v ≤ 0x0D) || v == 0x20 || v == 0x85 || v == 0xA0 || v == 0x1680 ||
  (0x2000 ≤ v && v ≤ 0x200A) || v == 0x2028 || v == 0x2029 ||
  v == 0x202F || v == 0x205F || v == 0x3000

/-- Rust `char::len_utf8`: number of bytes of the UTF-8 encoding. -/
def utf8_size (c : Char) : Nat :=
  if c.toNat < 0x80 then 1
  else if c.toNat < 0x800 then 2
  else if c.toNat < 0x10000 then 3
  else 4

/-- UTF-8 encoding of a single scalar value (standard bit layout). -/
def utf8_encode_char (c : Char) : List Nat :=
  let v := c.toNat
  if v < 0x80 then [v]
  else if v < 0x800 then [0xC0 + v / 0x40, 0x80 + v % 0x40]
  else if v < 0x10000 then
    [0xE0 + v / 0x1000, 0x80 + (v / 0x40) % 0x40, 0x80 + v % 0x40]
  else
    [0xF0 + v / 0x40000, 0x80 + (v / 0x1000) % 0x40,
     0x80 + (v / 0x40) % 0x40, 0x80 + v % 0x40]

/-- UTF-8 byte string of a Rust `str`, i.e. what byte indices index into. -/
def utf8_encode (l : List Char) : List Nat :=
  (l.map utf8_encode_char).flatten

/-- Total byte length of a `str` (Rust `str::len`). -/
def utf8_len (l : List Char) : Nat :=
  (l.map utf8_size).sum

/-- src/text.rs lines 67-71: the byte offset used for `split_at` when
hard-splitting a long word, `remaining.char_indices().nth(n).map(idx).unwrap_or(remaining.len())`:
the byte offset of the `n`-th character, or the total byte length when
fewer than `n + 1` characters remain. -/
def split_byte_of (w : List Char) (n : Nat) : Nat :=
  if n < w.length then utf8_len (w.take n) else utf8_len w

/-! ## String helpers used by the wrapper -/

/-- Rust `str::split('\n')`: splits on every newline, keeping empty
segments (so `"a\n"` yields `["a", ""]` and `""` yields `[""]`). -/
def split_newlines : List Char → List (List Char)
  | [] => [[]]
  | c :: rest =>
    let r := split_newlines rest
    if c = '\n' then [] :: r
    else
      match r with
      | [] => [[c]]
      | s :: tl => (c :: s) :: tl

/-- Rust `str::split_whitespace`: maximal runs of non-whitespace characters. -/
def split_whitespace : List Char → List (List Char)
  | [] => []
  | c :: rest =>
    if is_whitespace c then split_whitespace rest
    else
      (c :: rest.takeWhile (fun x => !is_whitespace x)) ::
        split_whitespace (rest.dropWhile (fun x => !is_whitespace x))
termination_by l => l.length
decreasing_by
  all_goals
    have hle : ∀ (l : List Char), (l.dropWhile (fun x => !is_whitespace x)).length ≤ l.length := by
      intro l
      induction l with
      | nil => simp
      | cons a t ih =>
        rw [List.dropWhile_cons]
        split
        · exact Nat.le_succ_of_le ih
        · exact Nat.le_refl _
    simp only [List.length_cons]
    first
    | exact Nat.lt_succ_of_le (hle _)
    | exact Nat.lt_succ_self _

/-- Rust `str::trim`: strip Unicode whitespace from both ends. -/
def trim (l : List Char) : List Char :=
  ((l.dropWhile is_whitespace).reverse.dropWhile is_whitespace).reverse

/-! ## Text wrapping (src/text.rs) -/

/-- `(q : f32) as usize`: truncate toward zero, saturating at 0 for
negative values (the values reached here are far below `usize::MAX`). -/
def rat_to_usize (q : ℚ) : Nat :=
  if q ≤ 0 then 0 else ⌊q⌋.toNat

/-- src/text.rs lines 12-13: `max_chars_per_line = (max_width / char_width) as usize`.
When `char_width = 0` the `f32` quotient is infinite (for positive
`max_width`), which `as usize` saturates to `usize::MAX`. -/
def max_chars_per_line (max_width font_size : ℚ) : Nat :=
  let char_width := font_size * defaultCharWidthFrac
  if char_width = 0 then (if 0 < max_width then 2 ^ 64 - 1 else 0)
  else rat_to_usize (max_width / char_width)

/-- src/text.rs lines 65-75: the `while remaining.chars().count() > max_chars_per_line`
loop. Returns the chunks pushed to `all_lines` and the final `remaining`.
The source splits at the byte offset `split_byte_of remaining maxC`; by
`split_byte_take` / `split_byte_drop` below this equals the character-level
`take` / `drop` used here. -/
def split_long_word (maxC : Nat) (w : List Char) : List (List Char) × List Char :=
  if h : 0 < maxC ∧ maxC < w.length then
    let p := split_long_word maxC (w.drop maxC)
    (w.take maxC :: p.1, p.2)
  else ([], w)
termination_by w.length
decreasing_by
  simp only [List.length_drop]
  omega

/-- State of the word loop in `wrap_text` (src/text.rs lines 40-41). -/
structure WrapSt where
  all_lines : List (List Char)
  current_line : List Char
  current_length : Nat
deriving Repr

/-- One iteration of the word loop of `wrap_text` (src/text.rs lines 43-81). -/
def wrap_word_step (maxC : Nat) (st : WrapSt) (word : List Char) : WrapSt :=
  let word_length := word.length
  -- lines 47-60: flush the line if the word does not fit, else append it
  let st1 : WrapSt :=
    if 0 < st.current_length ∧ maxC < st.current_length + 1 + word_length then
      ⟨st.all_lines ++ [trim st.current_line], word, word_length⟩
    else
      let line1 := if st.current_line = [] then st.current_line else st.current_line ++ [' ']
      let len1 := if st.current_line = [] then st.current_length else st.current_length + 1
      ⟨st.all_lines, line1 ++ word, len1 + word_length⟩
  -- lines 62-80: hard-split a word longer than the budget
  if maxC < word_length then
    let p := split_long_word maxC word
    if p.2 ≠ [] then ⟨st1.all_lines ++ p.1, p.2, p.2.length⟩
    else ⟨st1.all_lines ++ p.1, st1.current_line, st1.current_length⟩
  else st1

/-- Wrapping of one newline-delimited segment (src/text.rs lines 24-87). -/
def wrap_segment (maxC : Nat) (segment : List Char) : List (List Char) :=
  if segment = [] then [[]]
  else
    let words := split_whitespace segment
    if words = [] then [[]]
    else
      let st := words.foldl (wrap_word_step maxC) ⟨[], [], 0⟩
      if trim st.current_line ≠ [] then st.all_lines ++ [trim st.current_line]
      else st.all_lines

/-- The character-budget part of `wrap_text`, after `max_chars_per_line`
has been computed (src/text.rs lines 15-95). -/
def wrap_text_chars (text : List Char) (maxC : Nat) : List (List Char) :=
  if maxC = 0 then [text]
  else
    let all_lines := ((split_newlines text).map (wrap_segment maxC)).flatten
    if all_lines = [] then [[]] else all_lines

/-- src/text.rs `wrap_text`: break text into lines that fit the width. -/
def wrap_text (text : List Char) (max_width font_size : ℚ) : List (List Char) :=
  if text = [] then [[]]
  else wrap_text_chars text (max_chars_per_line max_width font_size)

/-- src/text.rs `calculate_wrapped_text_height`. -/
def calculate_wrapped_text_height (text : List Char) (max_width font_size line_spacing : ℚ) : ℚ :=
  (wrap_text text max_width font_size).length * (font_size * line_spacing)

/-! ## Font metrics capability (src/font.rs `trait FontMetrics`) -/

/-- The abstract measurement / encoding capability: per-character width,
string width, and byte encoding of a string. -/
structure FontMetrics where
  char_width : Char → ℚ → ℚ
  text_width : List Char → ℚ → ℚ
  encode_text : List Char → List Nat

/-! ## Metrics-based wrapping (src/text.rs `wrap_text_with_metrics`) -/

/-- src/text.rs lines 163-172: the inner `for (i, ch) in remaining.char_indices()`
scan. Counts how many leading characters are accepted before the width
budget is exceeded (`split_at_char` is the byte offset after the accepted
characters; this records the corresponding character count). -/
def split_count_go (m : FontMetrics) (fs maxW : ℚ) : List Char → ℚ → Nat → Nat
  | [], _, k => k
  | c :: rest, acc, k =>
    let cw := m.char_width c fs
    if maxW < acc + cw ∧ 0 < k then k
    else split_count_go m fs maxW rest (acc + cw) (k + 1)

/-- src/text.rs lines 173-180: when no character was accepted
(`split_at_char == 0`), take at least one character. -/
def at_least_one (n : Nat) : Nat :=
  if n = 0 then 1 else n

/-- src/text.rs lines 161-189: the `while !remaining.is_empty()` hard-split
loop of `wrap_text_with_metrics`. Returns the chunks pushed to `all_lines`
and the final chunk that becomes the new `current_line`. The source splits
`remaining` at the byte offset accumulated from `ch.len_utf8()`; as for
`split_long_word` this equals the character-level `take` / `drop`. -/
def wtm_split_loop (m : FontMetrics) (fs maxW : ℚ) (rem : List Char) : List (List Char) × List Char :=
  if hrem : rem = [] then ([], [])
  else
    let k := at_least_one (split_count_go m fs maxW rem 0 0)
    if rem.drop k = [] then ([], rem.take k)
    else
      let p := wtm_split_loop m fs maxW (rem.drop k)
      (rem.take k :: p.1, p.2)
termination_by rem.length
decreasing_by
  simp only [List.length_drop]
  have hk : 1 ≤ at_least_one (split_count_go m fs maxW rem 0 0) := by
    unfold at_least_one
    split <;> omega
  have hlen : 0 < rem.length := List.length_pos.mpr hrem
  omega

/-- State of the word loop in `wrap_text_with_metrics` (src/text.rs lines 140-141). -/
structure WrapStM where
  all_lines : List (List Char)
  current_line : List Char
  current_width : ℚ

/-- One iteration of the word loop of `wrap_text_with_metrics`
(src/text.rs lines 143-191). -/
def wtm_word_step (m : FontMetrics) (fs maxW : ℚ) (st : WrapStM) (word : List Char) : WrapStM :=
  let word_width := m.text_width word fs
  let space_width := m.char_width ' ' fs
  let st1 : WrapStM :=
    if 0 < st.current_width ∧ maxW < st.current_width + space_width + word_width then
      ⟨st.all_lines ++ [trim st.current_line], word, word_width⟩
    else
      let line1 := if st.current_line = [] then st.current_line else st.current_line ++ [' ']
      let w1 := if st.current_line = [] then st.current_width else st.current_width + space_width
      ⟨st.all_lines, line1 ++ word, w1 + word_width⟩
  if maxW < word_width then
    let p := wtm_split_loop m fs maxW word
    if word = [] then st1  -- the while loop body never runs for an empty word
    else ⟨st1.all_lines ++ p.1, p.2, m.text_width p.2 fs⟩
  else st1

/-- Wrapping of one newline-delimited segment in `wrap_text_with_metrics`
(src/text.rs lines 126-196). -/
def wrap_segment_with_metrics (m : FontMetrics) (fs maxW : ℚ) (segment : List Char) : List (List Char) :=
  if segment = [] then [[]]
  else
    let words := split_whitespace segment
    if words = [] then [[]]
    else
      let st := words.foldl (wtm_word_step m fs maxW) ⟨[], [], 0⟩
      if trim st.current_line ≠ [] then st.all_lines ++ [trim st.current_line]
      else st.all_lines

/-- src/text.rs `wrap_text_with_metrics`. -/
def wrap_text_with_metrics (text : List Char) (max_width font_size : ℚ) (m : FontMetrics) :
    List (List Char) :=
  if text = [] then [[]]
  else
    let all_lines := ((split_newlines text).map (wrap_segment_with_metrics m font_size max_width)).flatten
    if all_lines = [] then [[]] else all_lines

/-- src/text.rs `calculate_wrapped_text_height_with_metrics`. -/
def calculate_wrapped_text_height_with_metrics (text : List Char) (max_width font_size line_spacing : ℚ) (m : FontMetrics) : ℚ :=
  (wrap_text_with_metrics text max_width font_size m).length * (font_size * line_spacing)

/-! ## Data model (src/style.rs, src/table.rs)

`embedded_font_resource_name` (table and cell level) and
`embedded_font_resource_name_bold` are used throughout src/drawing.rs and
src/lib.rs but their declarations are absent from the provided style.rs.
Modelled from the spec: "optional embedded-font resource references" on
the style records (spec.md section 3).
-/

structure Color where
  r : ℚ
  g : ℚ
  b : ℚ
deriving DecidableEq, Repr

inductive Alignment
  | left
  | center
  | right
deriving DecidableEq, Repr

inductive VerticalAlignment
  | top
  | middle
  | bottom
deriving DecidableEq, Repr

inductive BorderStyle
  | none
  | solid
  | dashed
  | dotted
deriving DecidableEq, Repr

structure Padding where
  top : ℚ
  right : ℚ
  bottom : ℚ
  left : ℚ
deriving DecidableEq, Repr

structure CellStyle where
  background_color : Option Color
  text_color : Color
  font_size : Option ℚ
  font_name : Option (List Char)
  bold : Bool
  italic : Bool
  alignment : Alignment
  vertical_alignment : VerticalAlignment
  padding : Option Padding
  border_left : Option (BorderStyle × ℚ × Color)
  border_right : Option (BorderStyle × ℚ × Color)
  border_top : Option (BorderStyle × ℚ × Color)
  border_bottom : Option (BorderStyle × ℚ × Color)
  embedded_font_resource_name : Option (List Char)

structure RowStyle where
  background_color : Option Color
  border_top : Option (BorderStyle × ℚ × Color)
  border_bottom : Option (BorderStyle × ℚ × Color)
  height : Option ℚ

structure TableStyle where
  border_style : BorderStyle
  border_width : ℚ
  border_color : Color
  background_color : Option Color
  padding : Padding
  font_name : List Char
  default_font_size : ℚ
  page_height : Option ℚ
  top_margin : ℚ
  bottom_margin : ℚ
  repeat_headers : Bool
  embedded_font_resource_name : Option (List Char)
  embedded_font_resource_name_bold : Option (List Char)

/-- `TableStyle::default()` from src/style.rs. -/
def default_table_style : TableStyle where
  border_style := .solid
  border_width := 1
  border_color := ⟨0, 0, 0⟩
  background_color := Option.none
  padding := ⟨5, 5, 5, 5⟩
  font_name := "Helvetica".toList
  default_font_size := 10
  page_height := Option.none
  top_margin := DEFAULT_MARGIN
  bottom_margin := DEFAULT_MARGIN
  repeat_headers := true
  embedded_font_resource_name := Option.none
  embedded_font_resource_name_bold := Option.none

structure ImageOverlay where
  text : List Char
  font_size : ℚ
  bar_height : ℚ
  padding : ℚ
deriving DecidableEq, Repr

/-- src/table.rs `CellImage`. `xobject_id` models the identity of the
reference-counted pre-built XObject stream (`Arc::as_ptr` equality); the
single-variant `ImageFit` enum is omitted. -/
structure CellImage where
  xobject_id : Nat
  width_px : Nat
  height_px : Nat
  max_render_height_pts : Option ℚ
  overlay : Option ImageOverlay
deriving DecidableEq, Repr

structure Cell where
  content : List Char
  style : Option CellStyle
  colspan : Nat
  rowspan : Nat
  text_wrap : Bool
  images : List CellImage

structure Row where
  cells : List Cell
  style : Option RowStyle
  height : Option ℚ

inductive ColumnWidth
  | pixels (w : ℚ)
  | percentage (p : ℚ)
  | auto
deriving DecidableEq, Repr

structure Table where
  rows : List Row
  style : TableStyle
  column_widths : Option (List ColumnWidth)
  total_width : Option ℚ
  header_rows : Nat
  font_metrics : Option FontMetrics
  bold_font_metrics : Option FontMetrics

/-- src/error.rs `TableError`; `format!` messages are dropped, only the
error kind is kept. -/
inductive TableError
  | invalidTable
  | layoutError
  | drawingError
deriving DecidableEq, Repr

/-- src/layout.rs `TableLayout`. -/
structure TableLayout where
  column_widths : List ℚ
  row_heights : List ℚ
  total_width : ℚ
  total_height : ℚ
deriving DecidableEq, Repr

/-! ## Table structure helpers (src/table.rs) -/

/-- One row's total column coverage `Σ max(colspan, 1)`
(src/table.rs lines 292-295, also `column_count` lines 274-279). -/
def row_coverage (r : Row) : Nat :=
  (r.cells.map (fun c => max c.colspan 1)).sum

/-- src/table.rs `Table::column_count`: coverage of the first row, 0 for an
empty table. -/
def Table.column_count (t : Table) : Nat :=
  match t.rows.head? with
  | some r => row_coverage r
  | Option.none => 0

/-- Sum of the percentage specs (src/table.rs lines 315-321). -/
def total_percentage (specs : List ColumnWidth) : ℚ :=
  (specs.map (fun s =>
    match s with
    | .percentage p => p
    | _ => 0)).sum

/-- src/table.rs `Table::validate`. -/
def Table.validate (t : Table) : Except TableError Unit :=
  if t.rows.isEmpty then .error .invalidTable
  else if t.rows.any (fun r => row_coverage r ≠ t.column_count) then .error .invalidTable
  else
    match t.column_widths with
    | some widths =>
      if widths.length ≠ t.column_count then .error .invalidTable
      else if 100 < total_percentage widths then .error .invalidTable
      else .ok ()
    | Option.none => .ok ()

/-! ## Column width resolution (src/layout.rs) -/

def cell_is_bold (c : Cell) : Bool :=
  (c.style.map (fun s => s.bold)).getD false

/-- src/layout.rs `metrics_for_cell`: bold cells prefer bold metrics,
falling back to regular metrics. -/
def metrics_for_cell (t : Table) (c : Cell) : Option FontMetrics :=
  if cell_is_bold c then
    match t.bold_font_metrics with
    | some m => some m
    | Option.none => t.font_metrics
  else t.font_metrics

/-- Effective font size of a cell (cell override, else table default). -/
def cell_font_size (t : Table) (c : Cell) : ℚ :=
  (c.style.bind (fun s => s.font_size)).getD t.style.default_font_size

/-- src/drawing_utils.rs `estimate_text_width`. -/
def estimate_text_width (text : List Char) (font_size : ℚ) : ℚ :=
  (text.length : ℚ) * font_size * defaultCharWidthFrac

/-- src/drawing_utils.rs `estimate_text_width_with_metrics`. -/
def estimate_text_width_with_metrics (text : List Char) (font_size : ℚ) (m : FontMetrics) : ℚ :=
  m.text_width text font_size

/-- Estimated width of one cell's content, shared by
`estimate_column_content_width` and `calculate_column_widths`
(src/layout.rs lines 165-179 and 204-218). -/
def cell_estimated_width (t : Table) (c : Cell) : ℚ :=
  let font_size := cell_font_size t c
  match metrics_for_cell t c with
  | some m => estimate_text_width_with_metrics c.content font_size m
  | Option.none => estimate_text_width c.content font_size

/-- Maximum estimated content width over the rows' cells at one column
index (used with index < cells-length guard, as in the source loops). -/
def column_max_content_width (t : Table) (col_idx : Nat) : ℚ :=
  t.rows.foldl (fun acc r =>
    match r.cells.get? col_idx with
    | some cell => max acc (cell_estimated_width t cell)
    | Option.none => acc) 0

/-- src/layout.rs `estimate_column_content_width`. -/
def estimate_column_content_width (t : Table) (col_idx : Nat) : ℚ :=
  column_max_content_width t col_idx + t.style.padding.left + t.style.padding.right

def total_fixed_width (specs : List ColumnWidth) : ℚ :=
  (specs.map (fun s =>
    match s with
    | .pixels w => w
    | _ => 0)).sum

/-- Indices of the `Auto` columns (src/layout.rs lines 104-106). -/
def auto_columns (specs : List ColumnWidth) : List Nat :=
  specs.enum.filterMap (fun is =>
    match is.2 with
    | .auto => some is.1
    | _ => Option.none)

/-- src/layout.rs line 112: `available - total_fixed - percentage_width`. -/
def remaining_width_of (specs : List ColumnWidth) (available_width : ℚ) : ℚ :=
  available_width - total_fixed_width specs - available_width * (total_percentage specs / 100)

/-- Sum of the content-width estimates of all auto columns
(src/layout.rs lines 128-133). -/
def auto_total_proportion (specs : List ColumnWidth) (t : Table) : ℚ :=
  ((auto_columns specs).map (fun col => estimate_column_content_width t col)).sum

/-- The un-floored share of one auto column (src/layout.rs lines 136-142):
proportional to its content estimate, or an even split when the total
estimate is not positive. -/
def auto_raw_share (specs : List ColumnWidth) (available_width : ℚ) (t : Table) (i : Nat) : ℚ :=
  let remaining := remaining_width_of specs available_width
  let total_prop := auto_total_proportion specs t
  if 0 < total_prop then remaining * (estimate_column_content_width t i / total_prop)
  else remaining / ((auto_columns specs).length : ℚ)

/-- src/layout.rs `resolve_column_widths`. The source fills
`resolved_widths` in three passes (fixed, percentage, auto), each pass
writing a disjoint set of indices exactly once; this is expressed here as
one position-wise map over the enumerated specs. The source's `Result`
return is always `Ok`. -/
def resolve_column_widths (specs : List ColumnWidth) (available_width : ℚ) (t : Table) : List ℚ :=
  specs.enum.map (fun is =>
    match is.2 with
    | .pixels w => w
    | .percentage p => available_width * (p / 100)
    | .auto =>
      if 0 < remaining_width_of specs available_width then
        max (auto_raw_share specs available_width t is.1) MIN_COLUMN_WIDTH
      else MIN_COLUMN_WIDTH)

/-- src/layout.rs `calculate_column_widths`: content-based widths when no
specs are given. The source loop writes `max_widths[i]` for every cell
index `i < col_count`, then adds padding and floors at the minimum. -/
def calculate_column_widths (t : Table) : Except TableError (List ℚ) :=
  if t.column_count = 0 then .error .layoutError
  else .ok ((List.range t.column_count).map (fun i =>
    max (column_max_content_width t i + t.style.padding.left + t.style.padding.right)
      MIN_COLUMN_WIDTH))

/-! ## Row heights and layout (src/layout.rs) -/

/-- src/layout.rs `font_size_to_height`. -/
def font_size_to_height (font_size : ℚ) : ℚ :=
  font_size * lineHeightMult

/-- Estimated height of one wrapping-enabled cell
(src/layout.rs lines 263-279). -/
def cell_wrap_height (t : Table) (c : Cell) (available_width font_size : ℚ) : ℚ :=
  match metrics_for_cell t c with
  | some m =>
    calculate_wrapped_text_height_with_metrics c.content available_width font_size lineHeightMult m
  | Option.none => calculate_wrapped_text_height c.content available_width font_size lineHeightMult

/-- src/layout.rs `calculate_row_heights`. The source `break`s out of the
cell loop at the first index `≥ column_widths.len()`; since cell indices
ascend, this equals skipping every such index. The source's `Result`
return is always `Ok`. -/
def calculate_row_heights (t : Table) (column_widths : List ℚ) : List ℚ :=
  t.rows.map (fun row =>
    match row.height with
    | some h => h
    | Option.none =>
      let mh := row.cells.enum.foldl (fun acc ic =>
        if ic.1 < column_widths.length then
          let cell := ic.2
          let font_size := cell_font_size t cell
          let available_width :=
            column_widths.getD ic.1 0 - t.style.padding.left - t.style.padding.right
          let estimated_height :=
            if cell.text_wrap then cell_wrap_height t cell available_width font_size
            else font_size_to_height font_size
          max acc estimated_height
        else acc) 0
      max (mh + t.style.padding.top + t.style.padding.bottom)
        (font_size_to_height t.style.default_font_size))

/-- src/layout.rs `estimate_total_width`. -/
def estimate_total_width (_t : Table) : ℚ :=
  LETTER_WIDTH - DEFAULT_MARGIN * 2

/-- src/layout.rs `calculate_layout`. -/
def calculate_layout (t : Table) : Except TableError TableLayout :=
  match t.validate with
  | .error e => .error e
  | .ok _ =>
    let available_width := t.total_width.getD (estimate_total_width t)
    let widthsRes : Except TableError (List ℚ) :=
      match t.column_widths with
      | some specs => .ok (resolve_column_widths specs available_width t)
      | Option.none => calculate_column_widths t
    match widthsRes with
    | .error e => .error e
    | .ok column_widths =>
      let row_heights := calculate_row_heights t column_widths
      .ok ⟨column_widths, row_heights, column_widths.sum, row_heights.sum⟩

/-! ## Pagination (src/drawing.rs `draw_table_paginated`)

The row-to-page assignment loop of `draw_table_paginated` (lines 979-1046)
is modelled as a pure function from the row heights to the ordered list of
per-page row-index groups (the `rows_on_current_page` lists flushed to
`draw_rows_subset`) together with the final cursor `current_y`. Document
mutation (page creation, content appending) is external and does not feed
back into which rows land on which page.
-/

def paginate_loop (t : Table) (heights : List ℚ) (page_height : ℚ) :
    Nat → List ℚ → ℚ → List Nat → List (List Nat) → List (List Nat) × ℚ
  | _idx, [], y, g, acc =>
    -- lines 1029-1046: flush the remaining rows (if any) to the last page
    (if g = [] then acc else acc ++ [g], y)
  | idx, h :: rest, y, g, acc =>
    -- line 985: row does not fit and the current page is non-empty
    if y - h < t.style.bottom_margin ∧ g ≠ [] then
      let acc1 := acc ++ [g]
      let y1 := page_height - t.style.top_margin
      -- lines 1014-1019: pre-seed repeated header rows on the new page
      if t.style.repeat_headers ∧ 0 < t.header_rows ∧ t.header_rows ≤ idx then
        let y2 := y1 - (heights.take t.header_rows).sum
        paginate_loop t heights page_height (idx + 1) rest (y2 - h) (List.range t.header_rows ++ [idx]) acc1
      else
        paginate_loop t heights page_height (idx + 1) rest (y1 - h) [idx] acc1
    else
      paginate_loop t heights page_height (idx + 1) rest (y - h) (g ++ [idx]) acc

/-- The page groups and final cursor produced by `draw_table_paginated`. -/
def draw_table_paginated_groups (t : Table) (layout : TableLayout) (start_y : ℚ) :
    List (List Nat) × ℚ :=
  let page_height := t.style.page_height.getD A4_HEIGHT
  paginate_loop t layout.row_heights page_height 0 layout.row_heights start_y [] []

/-! ## Drawing instruction model (lopdf `Object` values emitted by the core) -/

/-- Flat content-stream tokens: operator / operand names, numbers,
hexadecimal-encoded strings, literal strings, and the one dictionary used
by the artifact marker. -/
inductive Obj
  | name (s : List Char)
  | real (q : ℚ)
  | strHex (bytes : List Nat)
  | strLit (s : List Char)
  | artifactDict
deriving DecidableEq, Repr

/-- lopdf `content::Operation` (operator with operands). -/
structure Operation where
  operator : List Char
  operands : List Obj
deriving DecidableEq, Repr

/-- src/lib.rs `TaggedCellHook`, modelled as pure per-cell functions. -/
structure TaggedCellHook where
  begin_cell : Nat → Nat → Bool → List Operation
  end_cell : Nat → Nat → Bool → List Operation

/-- src/drawing.rs `ImageXObjects`: image identity → resource name map,
plus whether the overlay ExtGState resource was created. -/
structure ImageXObjects where
  entries : List (Nat × List Char)
  gstate : Bool

def registry_lookup (reg : ImageXObjects) (id : Nat) : Option (List Char) :=
  (reg.entries.find? (fun e => e.1 = id)).map (fun e => e.2)

/-! ## Low-level drawing primitives (src/drawing_utils.rs) -/

def draw_rectangle_fill (x y width height : ℚ) (color : Color) : List Obj :=
  [.name "rg".toList, .real color.r, .real color.g, .real color.b,
   .name "re".toList, .real x, .real y, .real width, .real height,
   .name "f".toList]

def set_stroke_style (color : Color) (width : ℚ) : List Obj :=
  [.name "RG".toList, .real color.r, .real color.g, .real color.b,
   .name "w".toList, .real width]

def draw_rectangle_stroke (x y width height : ℚ) : List Obj :=
  [.name "re".toList, .real x, .real y, .real width, .real height, .name "S".toList]

def draw_horizontal_line (start_x end_x y : ℚ) : List Obj :=
  [.name "m".toList, .real start_x, .real y, .name "l".toList, .real end_x, .real y,
   .name "S".toList]

def draw_vertical_line (x start_y end_y : ℚ) : List Obj :=
  [.name "m".toList, .real x, .real start_y, .name "l".toList, .real x, .real end_y,
   .name "S".toList]

/-- src/drawing_utils.rs `calculate_cell_width`: sum of the spanned
column widths (`column_widths[col_idx..end_col]`). -/
def calculate_cell_width (col_idx colspan : Nat) (column_widths : List ℚ) : ℚ :=
  if 1 < colspan then
    let end_col := min (col_idx + colspan) column_widths.length
    (((column_widths.drop col_idx).take (end_col - col_idx))).sum
  else ((column_widths.get? col_idx).getD 0)

/-! ## Border grid (src/drawing_utils.rs `draw_table_borders`) -/

inductive BorderDrawingMode
  | full
  | subset (subset_height : ℚ)

/-- Horizontal rules between rows (src/drawing_utils.rs lines 217-229):
one rule above every processed row except the first, at the running y. -/
def border_horiz_lines (layout : TableLayout) (start_x total_width : ℚ) :
    List Nat → ℚ → Bool → List Obj
  | [], _, _ => []
  | row_idx :: rest, current_y, is_first =>
    let line := if is_first then [] else draw_horizontal_line start_x (start_x + total_width) current_y
    let y1 := if row_idx < layout.row_heights.length then current_y - layout.row_heights.getD row_idx 0
      else current_y
    line ++ border_horiz_lines layout start_x total_width rest y1 false

/-- Vertical rules inside one row (src/drawing_utils.rs lines 253-271):
a rule at the start of every cell except the first column, advancing by
the cell's spanned width; colspans therefore skip internal boundaries. -/
def border_vert_cells (layout : TableLayout) (row_y_top row_y_bottom : ℚ) :
    List Cell → ℚ → Nat → List Obj
  | [], _, _ => []
  | cell :: rest, current_x, col_idx =>
    if layout.column_widths.length ≤ col_idx then []
    else
      let line := if 0 < col_idx then draw_vertical_line current_x row_y_top row_y_bottom else []
      let cell_span := max cell.colspan 1
      let span_sum := (((layout.column_widths.drop col_idx).take cell_span)).sum
      line ++ border_vert_cells layout row_y_top row_y_bottom rest (current_x + span_sum)
        (col_idx + cell_span)

/-- Vertical rules for all processed rows (src/drawing_utils.rs lines 232-272). -/
def border_vert_lines (t : Table) (layout : TableLayout) (start_x start_y : ℚ)
    (row_indices : Option (List Nat)) (rows_to_process : List Nat) : List Obj :=
  (rows_to_process.enum.map (fun ir =>
    if t.rows.length ≤ ir.2 then []
    else
      let row := t.rows.getD ir.2 ⟨[], Option.none, Option.none⟩
      let row_y_top := match row_indices with
        | some idxs => start_y - ((idxs.take ir.1).map (fun i => layout.row_heights.getD i 0)).sum
        | Option.none => start_y - ((layout.row_heights.take ir.2)).sum
      let row_y_bottom := row_y_top - layout.row_heights.getD ir.2 0
      border_vert_cells layout row_y_top row_y_bottom row.cells start_x 0)).flatten

/-- src/drawing_utils.rs `draw_table_borders` (shared full/subset routine). -/
def draw_table_borders_util (t : Table) (layout : TableLayout) (position : ℚ × ℚ)
    (mode : BorderDrawingMode) (row_indices : Option (List Nat)) : List Obj :=
  let start_x := position.1
  let start_y := position.2
  if t.style.border_style = BorderStyle.none then []
  else
    let total_height := match mode with
      | .full => layout.total_height
      | .subset h => h
    let rows_to_process := match row_indices with
      | some idxs => idxs
      | Option.none => List.range layout.row_heights.length
    set_stroke_style t.style.border_color t.style.border_width ++
    draw_rectangle_stroke start_x (start_y - total_height) layout.total_width total_height ++
    border_horiz_lines layout start_x layout.total_width rows_to_process start_y true ++
    border_vert_lines t layout start_x start_y row_indices rows_to_process

/-- src/drawing.rs `draw_table_borders` (full-table wrapper). -/
def draw_table_borders (t : Table) (layout : TableLayout) (position : ℚ × ℚ) : List Obj :=
  draw_table_borders_util t layout position .full Option.none

/-! ## Cell text emission (src/drawing.rs `draw_cell_text_operations`) -/

/-- src/drawing.rs `measure_text_width`. -/
def measure_text_width (text : List Char) (font_size : ℚ) (metrics : Option FontMetrics) : ℚ :=
  match metrics with
  | some m => m.text_width text font_size
  | Option.none => (text.length : ℚ) * font_size * defaultCharWidthFrac

/-- Font resource name selection (src/drawing.rs lines 750-795):
cell embedded font, then table bold/regular embedded font, then the
built-in Type1 mapping. -/
def font_resource_name_of (t : Table) (cell : Cell) : Option (List Char) × List Char :=
  let is_bold := cell_is_bold cell
  let embedded_font_name : Option (List Char) :=
    match cell.style.bind (fun s => s.embedded_font_resource_name) with
    | some n => some n
    | Option.none =>
      if is_bold then
        match t.style.embedded_font_resource_name_bold with
        | some n => some n
        | Option.none => t.style.embedded_font_resource_name
      else t.style.embedded_font_resource_name
  let resolved : List Char :=
    match embedded_font_name with
    | some efn => efn
    | Option.none =>
      let base := (cell.style.bind (fun s => s.font_name)).getD t.style.font_name
      if is_bold then
        (if base = "Helvetica".toList then "F1-Bold"
         else if base = "Courier".toList then "F2-Bold"
         else if base = "Times-Roman".toList then "F3-Bold"
         else "F1-Bold").toList
      else
        (if base = "Helvetica".toList then "F1"
         else if base = "Courier".toList then "F2"
         else if base = "Times-Roman".toList then "F3"
         else "F1").toList
  (embedded_font_name, resolved)

/-- The wrapped (or newline-split) lines a cell's text is drawn as
(src/drawing.rs lines 720-729). -/
def cell_text_lines (cell : Cell) (t : Table) (available_width font_size : ℚ) :
    List (List Char) :=
  if cell.text_wrap then
    match metrics_for_cell t cell with
    | some m => wrap_text_with_metrics cell.content available_width font_size m
    | Option.none => wrap_text cell.content available_width font_size
  else split_newlines cell.content

/-- src/drawing.rs `draw_cell_text_operations`. -/
def draw_cell_text_operations (cell : Cell) (t : Table) (x y width height : ℚ) :
    List Operation :=
  if cell.content = [] then []
  else
    let font_size := cell_font_size t cell
    let text_color := (cell.style.map (fun s => s.text_color)).getD ⟨0, 0, 0⟩
    let alignment := (cell.style.map (fun s => s.alignment)).getD .left
    let v_alignment := (cell.style.map (fun s => s.vertical_alignment)).getD .middle
    let padding := (cell.style.bind (fun s => s.padding)).getD t.style.padding
    let available_width := width - padding.left - padding.right
    let metrics := metrics_for_cell t cell
    let lines := cell_text_lines cell t available_width font_size
    let line_height := font_size * lineHeightMult
    let total_text_height := (lines.length : ℚ) * line_height
    let start_y := match v_alignment with
      | .top => y - padding.top - font_size
      | .middle => y - height / 2 + total_text_height / 2 - font_size
      | .bottom => y - height + padding.bottom + total_text_height - font_size
    let fn := font_resource_name_of t cell
    let use_encoded := fn.1.isSome && metrics.isSome
    let text_x_of := fun (line : List Char) =>
      match alignment with
      | .left => x + padding.left
      | .center => x + width / 2 - measure_text_width line font_size metrics / 2
      | .right => x + width - padding.right - measure_text_width line font_size metrics
    let show_op := fun (line : List Char) =>
      if use_encoded then
        Operation.mk "Tj".toList [.strHex ((metrics.map (fun m => m.encode_text line)).getD [])]
      else Operation.mk "Tj".toList [.strLit line]
    let line_ops := (lines.enum.map (fun il =>
      let text_x := text_x_of il.2
      let td :=
        if il.1 = 0 then Operation.mk "Td".toList [.real text_x, .real (start_y - (il.1 : ℚ) * line_height)]
        else
          let prev_x := text_x_of (lines.getD (il.1 - 1) [])
          Operation.mk "Td".toList [.real (text_x - prev_x), .real (-line_height)]
      [td, show_op il.2])).flatten
    [Operation.mk "BT".toList [],
     Operation.mk "Tf".toList [.name fn.2, .real font_size],
     Operation.mk "rg".toList [.real text_color.r, .real text_color.g, .real text_color.b]] ++
    line_ops ++ [Operation.mk "ET".toList []]

def operations_to_objects (ops : List Operation) : List Obj :=
  (ops.map (fun op => Obj.name op.operator :: op.operands)).flatten

/-- src/drawing.rs `draw_cell_text`: text operations wrapped in a
save/clip/restore region equal to the cell bounds. The source's `Result`
return is always `Ok`. -/
def draw_cell_text (cell : Cell) (t : Table) (x y width height : ℚ) : List Obj :=
  [Obj.name "q".toList, .name "re".toList, .real x, .real (y - height), .real width,
   .real height, .name "W".toList, .name "n".toList] ++
  operations_to_objects (draw_cell_text_operations cell t x y width height) ++
  [Obj.name "Q".toList]

/-! ## Image emission (src/drawing.rs) -/

def OVERLAY_GSTATE_NAME : List Char := "GSTblOvl".toList

structure ImageRenderBounds where
  img_x : ℚ
  img_y : ℚ
  render_w : ℚ
  render_h : ℚ

/-- src/drawing.rs `calculate_image_render_bounds` (contain-fit with
optional max height, centered in the padded interior). -/
def calculate_image_render_bounds (image : CellImage) (x y width height : ℚ)
    (padding : Padding) : Option ImageRenderBounds :=
  let available_w := width - padding.left - padding.right
  let available_h := height - padding.top - padding.bottom
  if available_w ≤ 0 ∨ available_h ≤ 0 ∨ image.width_px = 0 ∨ image.height_px = 0 then
    Option.none
  else
    let aspect := (image.width_px : ℚ) / (image.height_px : ℚ)
    let render_h0 := available_w / aspect
    let render_h1 := match image.max_render_height_pts with
      | some max_h => min render_h0 max_h
      | Option.none => render_h0
    let render_h2 := min render_h1 available_h
    let render_w2 := render_h2 * aspect
    let rw_rh := if available_w < render_w2 then (available_w, available_w / aspect)
      else (render_w2, render_h2)
    let img_x := x + padding.left + (available_w - rw_rh.1) / 2
    let img_y := y - height + padding.bottom + (available_h - rw_rh.2) / 2
    some ⟨img_x, img_y, rw_rh.1, rw_rh.2⟩

/-- src/drawing.rs `resolve_overlay_font_resource_name`. -/
def resolve_overlay_font_resource_name (t : Table) : List Char :=
  match t.style.embedded_font_resource_name with
  | some n => n
  | Option.none => "F1".toList

/-- src/drawing.rs `draw_image_overlay`. -/
def draw_image_overlay (overlay : ImageOverlay) (bounds : ImageRenderBounds) (t : Table) :
    List Obj :=
  let bar_w := bounds.render_w
  let bar_h := min overlay.bar_height bounds.render_h
  let bar_x := bounds.img_x
  let bar_y := bounds.img_y + bounds.render_h - bar_h
  let font_name := resolve_overlay_font_resource_name t
  let use_encoded := t.style.embedded_font_resource_name.isSome && t.font_metrics.isSome
  let text_x := bar_x + overlay.padding
  let baseline_y := bar_y + bar_h - overlay.font_size - (bar_h - overlay.font_size) / 2
  [Obj.name "q".toList, .name "gs".toList, .name OVERLAY_GSTATE_NAME,
   .name "rg".toList, .real 0, .real 0, .real 0,
   .name "re".toList, .real bar_x, .real bar_y, .real bar_w, .real bar_h,
   .name "f".toList, .name "Q".toList,
   .name "BT".toList, .name "rg".toList, .real 1, .real 1, .real 1,
   .name "Tf".toList, .name font_name, .real overlay.font_size,
   .name "Td".toList, .real text_x, .real baseline_y] ++
  (if use_encoded then
    [Obj.name "Tj".toList,
     .strHex ((t.font_metrics.map (fun m => m.encode_text overlay.text)).getD [])]
   else [Obj.name "Tj".toList, .strLit overlay.text]) ++
  [Obj.name "ET".toList]

/-- src/drawing.rs `draw_cell_image`. -/
def draw_cell_image (image : CellImage) (resource_name : List Char) (x y width height : ℚ)
    (padding : Padding) (t : Table) (has_gstate : Bool) : List Obj :=
  match calculate_image_render_bounds image x y width height padding with
  | Option.none => []
  | some bounds =>
    [Obj.name "q".toList, .name "re".toList, .real x, .real (y - height), .real width,
     .real height, .name "W".toList, .name "n".toList,
     .name "cm".toList, .real bounds.render_w, .real 0, .real 0, .real bounds.render_h,
     .real bounds.img_x, .real bounds.img_y,
     .name "Do".toList, .name resource_name, .name "Q".toList] ++
    (match image.overlay with
     | some overlay =>
       if has_gstate ∧ overlay.text ≠ [] then draw_image_overlay overlay bounds t else []
     | Option.none => [])

def IMAGE_GAP : ℚ := 4

/-- src/drawing.rs `draw_cell_images`: single image uses the whole cell,
multiple images split the padded interior evenly with a fixed gap. -/
def draw_cell_images (images : List CellImage) (registry : ImageXObjects)
    (x y width height : ℚ) (padding : Padding) (t : Table) : List Obj :=
  if images.length = 0 then []
  else
    let has_gstate := registry.gstate
    if images.length = 1 then
      match images.head? with
      | some image =>
        match registry_lookup registry image.xobject_id with
        | some rn => draw_cell_image image rn x y width height padding t has_gstate
        | Option.none => []
      | Option.none => []
    else
      let available_w := width - padding.left - padding.right
      let total_gap := IMAGE_GAP * ((images.length : ℚ) - 1)
      let slot_w := (available_w - total_gap) / (images.length : ℚ)
      let slot_padding : Padding := ⟨padding.top, 0, padding.bottom, 0⟩
      (images.enum.map (fun ii =>
        let slot_x := x + padding.left + (ii.1 : ℚ) * (slot_w + IMAGE_GAP)
        match registry_lookup registry ii.2.xobject_id with
        | some rn => draw_cell_image ii.2 rn slot_x y slot_w height slot_padding t has_gstate
        | Option.none => [])).flatten

/-! ## Cell border overrides and artifact wrapping (src/drawing.rs) -/

/-- src/drawing.rs `wrap_objects_as_artifact`. -/
def wrap_objects_as_artifact (objects : List Obj) : List Obj :=
  if objects = [] then objects
  else
    [Obj.name "BDC".toList, .name "Artifact".toList, .artifactDict] ++ objects ++
    [Obj.name "EMC".toList]

def maybe_artifact (art : Bool) (objects : List Obj) : List Obj :=
  if art then wrap_objects_as_artifact objects else objects

/-- One side of `draw_cell_border_overrides` (src/drawing.rs lines 438-449). -/
def border_side_ops (border : Option (BorderStyle × ℚ × Color)) (side : List Obj) : List Obj :=
  match border with
  | some b =>
    if b.1 = BorderStyle.none then []
    else set_stroke_style b.2.2 b.2.1 ++ side
  | Option.none => []

/-- src/drawing.rs `draw_cell_border_overrides`. -/
def draw_cell_border_overrides (cs : CellStyle) (x y width height : ℚ) : List Obj :=
  let uniform : Option (List Obj) :=
    match cs.border_left, cs.border_right, cs.border_top, cs.border_bottom with
    | some l, some r, some tp, some b =>
      if l = r ∧ r = tp ∧ tp = b then
        some (if tp.1 ≠ BorderStyle.none then
          set_stroke_style tp.2.2 tp.2.1 ++ draw_rectangle_stroke x (y - height) width height
        else [])
      else Option.none
    | _, _, _, _ => Option.none
  match uniform with
  | some ops => ops
  | Option.none =>
    border_side_ops cs.border_left (draw_vertical_line x y (y - height)) ++
    border_side_ops cs.border_right (draw_vertical_line (x + width) y (y - height)) ++
    border_side_ops cs.border_top (draw_horizontal_line x (x + width) y) ++
    border_side_ops cs.border_bottom (draw_horizontal_line x (x + width) (y - height))

/-! ## Content emitter (src/drawing.rs `generate_table_operations`)

The source pushes into two accumulators: `operations` (backgrounds, text,
images, then the border grid) and `cell_border_overlay_ops` (per-cell
border overrides), appending the latter only after the grid. The cell loop
`break`s when `col_idx` passes the column count.
-/

def gen_cells (t : Table) (layout : TableLayout) (hook : Option TaggedCellHook)
    (registry : Option ImageXObjects) (art : Bool) (row_idx : Nat) (row_y row_height : ℚ) :
    List Cell → ℚ → Nat → List Obj × List Obj
  | [], _, _ => ([], [])
  | cell :: rest, current_x, col_idx =>
    if layout.column_widths.length ≤ col_idx then ([], [])
    else
      let is_header := decide (row_idx < t.header_rows)
      let begin_ops := match hook with
        | some hk => operations_to_objects (hk.begin_cell row_idx col_idx is_header)
        | Option.none => []
      let cell_width := calculate_cell_width col_idx cell.colspan layout.column_widths
      let bg_ops := match cell.style.bind (fun s => s.background_color) with
        | some bg => draw_rectangle_fill current_x (row_y - row_height) cell_width row_height bg
        | Option.none => []
      let text_ops := draw_cell_text cell t current_x row_y cell_width row_height
      let image_ops := match registry with
        | some reg =>
          if cell.images ≠ [] then
            let padding := (cell.style.bind (fun s => s.padding)).getD t.style.padding
            draw_cell_images cell.images reg current_x row_y cell_width row_height padding t
          else []
        | Option.none => []
      let end_ops := match hook with
        | some hk => operations_to_objects (hk.end_cell row_idx col_idx is_header)
        | Option.none => []
      let override_ops := match cell.style with
        | some cs =>
          maybe_artifact art (draw_cell_border_overrides cs current_x row_y cell_width row_height)
        | Option.none => []
      let restp := gen_cells t layout hook registry art row_idx row_y row_height rest
        (current_x + cell_width) (col_idx + max cell.colspan 1)
      (begin_ops ++ bg_ops ++ text_ops ++ image_ops ++ end_ops ++ restp.1,
       override_ops ++ restp.2)

def gen_rows (t : Table) (layout : TableLayout) (hook : Option TaggedCellHook)
    (registry : Option ImageXObjects) (art : Bool) (start_x : ℚ) :
    List (Nat × Row) → ℚ → List Obj × List Obj
  | [], _ => ([], [])
  | ir :: rest, current_y =>
    let row_height := layout.row_heights.getD ir.1 0
    let row_bg := match ir.2.style.bind (fun s => s.background_color) with
      | some bg =>
        maybe_artifact art (draw_rectangle_fill start_x (current_y - row_height)
          layout.total_width row_height bg)
      | Option.none => []
    let cellp := gen_cells t layout hook registry art ir.1 current_y row_height ir.2.cells
      start_x 0
    let restp := gen_rows t layout hook registry art start_x rest (current_y - row_height)
    (row_bg ++ cellp.1 ++ restp.1, cellp.2 ++ restp.2)

/-- src/drawing.rs `generate_table_operations`. The source's `Result`
return is always `Ok`. -/
def generate_table_operations (t : Table) (layout : TableLayout) (position : ℚ × ℚ)
    (hook : Option TaggedCellHook) (registry : Option ImageXObjects) : List Obj :=
  let art := hook.isSome
  let table_bg := match t.style.background_color with
    | some bg =>
      maybe_artifact art (draw_rectangle_fill position.1 (position.2 - layout.total_height)
        layout.total_width layout.total_height bg)
    | Option.none => []
  let rowsp := gen_rows t layout hook registry art position.1 t.rows.enum position.2
  table_bg ++ rowsp.1 ++ maybe_artifact art (draw_table_borders t layout position) ++ rowsp.2

/-! ## Specification-side definitions

These state the spec's claims in the spec's own terms, to be compared with
the implementation functions above.
-/

/-- Re-joining wrapped lines with one separator chosen per wrap point. -/
def interleave_sep : List (List Char) → List (List Char) → List Char
  | [], _ => []
  | [l], _ => l
  | l :: ls, [] => l ++ interleave_sep ls []
  | l :: ls, s :: ss => l ++ s ++ interleave_sep ls ss

/-- The spec's losslessness claim at one input: some choice of separators
(nothing, a space, or a newline at each wrap point) re-joins the wrapped
lines into exactly the original text. -/
def wrap_lossless_at (text : List Char) (mw fs : ℚ) : Prop :=
  ∃ seps : List (List Char),
    seps.length + 1 = (wrap_text text mw fs).length ∧
    (∀ s ∈ seps, s = [] ∨ s = [' '] ∨ s = ['\n']) ∧
    interleave_sep (wrap_text text mw fs) seps = text

/-- `[j, j+1, ..., j+len-1]`: a consecutive run of row indices. -/
def run (j len : Nat) : List Nat :=
  (List.range len).map (fun k => j + k)

/-- Shape of a continuation page's row group (amended claim C4): either the
break row index `j` is past the header block and the group is the seeded
headers `0..H-1` followed by a consecutive run from `j`, or the break falls
inside the header block (`1 ≤ j < H`) and the group is the unseeded run. -/
def cont_group_ok (H : Nat) (g : List Nat) : Prop :=
  ∃ j len, 1 ≤ len ∧
    ((H ≤ j ∧ g = List.range H ++ run j len) ∨ (1 ≤ j ∧ j < H ∧ g = run j len))

/-- The four error conditions listed by claim C5. -/
def claimed_error_cond (t : Table) : Bool :=
  t.rows.isEmpty || t.rows.any (fun r => row_coverage r ≠ t.column_count) ||
  (match t.column_widths with
   | some specs =>
     decide (specs.length ≠ t.column_count) || decide ((100 : ℚ) < total_percentage specs)
   | Option.none => false)

/-- Claim C6's formula for one cell's needed height:
`wrapped_line_count * font_size * line_height_multiplier` when wrapping is
enabled, a single line's height otherwise. -/
def claimed_cell_needed_height (t : Table) (column_widths : List ℚ) (i : Nat) (cell : Cell) : ℚ :=
  let font_size := cell_font_size t cell
  let available_width := column_widths.getD i 0 - t.style.padding.left - t.style.padding.right
  if cell.text_wrap then
    (match metrics_for_cell t cell with
     | some m => ((wrap_text_with_metrics cell.content available_width font_size m).length : ℚ)
     | Option.none => ((wrap_text cell.content available_width font_size).length : ℚ)) *
      (font_size * lineHeightMult)
  else font_size * lineHeightMult

/-- Claim C6's formula for one row's height: the explicit height verbatim,
else the maximum of the cells' needed heights plus vertical padding,
floored at one line's height at the table's default font size. -/
def claimed_row_height (t : Table) (column_widths : List ℚ) (r : Row) : ℚ :=
  match r.height with
  | some h => h
  | Option.none =>
    max ((r.cells.enum.map (fun ic => claimed_cell_needed_height t column_widths ic.1 ic.2)).foldr
          max 0 + t.style.padding.top + t.style.padding.bottom)
      (font_size_to_height t.style.default_font_size)

/-- The table-wide background fill emitted first (claim C7). -/
def table_bg_objs (t : Table) (layout : TableLayout) (position : ℚ × ℚ) (art : Bool) :
    List Obj :=
  match t.style.background_color with
  | some bg =>
    maybe_artifact art (draw_rectangle_fill position.1 (position.2 - layout.total_height)
      layout.total_width layout.total_height bg)
  | Option.none => []

/-- The per-cell walk of the emitter, made explicit: each drawn cell with
its x origin and column index (stopping where the source's `break` stops). -/
def cell_positions (layout : TableLayout) : List Cell → ℚ → Nat → List (Cell × ℚ × Nat)
  | [], _, _ => []
  | cell :: rest, x, col =>
    if layout.column_widths.length ≤ col then []
    else
      (cell, x, col) ::
        cell_positions layout rest (x + calculate_cell_width col cell.colspan layout.column_widths)
          (col + max cell.colspan 1)

/-- The body instructions of one drawn cell: hook prologue, background
fill, text, images, hook epilogue — in that order (claim C7). -/
def cell_body_objs (t : Table) (layout : TableLayout) (hook : Option TaggedCellHook)
    (registry : Option ImageXObjects) (row_idx : Nat) (row_y row_height : ℚ)
    (cxc : Cell × ℚ × Nat) : List Obj :=
  let cell := cxc.1
  let current_x := cxc.2.1
  let col_idx := cxc.2.2
  let is_header := decide (row_idx < t.header_rows)
  let cell_width := calculate_cell_width col_idx cell.colspan layout.column_widths
  (match hook with
   | some hk => operations_to_objects (hk.begin_cell row_idx col_idx is_header)
   | Option.none => []) ++
  (match cell.style.bind (fun s => s.background_color) with
   | some bg => draw_rectangle_fill current_x (row_y - row_height) cell_width row_height bg
   | Option.none => []) ++
  draw_cell_text cell t current_x row_y cell_width row_height ++
  (match registry with
   | some reg =>
     if cell.images ≠ [] then
       draw_cell_images cell.images reg current_x row_y cell_width row_height
         ((cell.style.bind (fun s => s.padding)).getD t.style.padding) t
     else []
   | Option.none => []) ++
  (match hook with
   | some hk => operations_to_objects (hk.end_cell row_idx col_idx is_header)
   | Option.none => [])

/-- The border-override instructions of one drawn cell (claim C7). -/
def cell_override_objs (layout : TableLayout) (art : Bool) (row_y row_height : ℚ)
    (cxc : Cell × ℚ × Nat) : List Obj :=
  match cxc.1.style with
  | some cs =>
    maybe_artifact art (draw_cell_border_overrides cs cxc.2.1 row_y
      (calculate_cell_width cxc.2.2 cxc.1.colspan layout.column_widths) row_height)
  | Option.none => []

/-- The per-row walk of the emitter: each row with its top y coordinate. -/
def row_positions (layout : TableLayout) : List (Nat × Row) → ℚ → List (Nat × Row × ℚ)
  | [], _ => []
  | ir :: rest, y => (ir.1, ir.2, y) :: row_positions layout rest (y - layout.row_heights.getD ir.1 0)

/-- The body instructions of one drawn row: row background fill then the
cells' body instructions in order (claim C7). -/
def row_body_objs (t : Table) (layout : TableLayout) (hook : Option TaggedCellHook)
    (registry : Option ImageXObjects) (art : Bool) (start_x : ℚ) (iry : Nat × Row × ℚ) :
    List Obj :=
  let row_height := layout.row_heights.getD iry.1 0
  (match iry.2.1.style.bind (fun s => s.background_color) with
   | some bg =>
     maybe_artifact art (draw_rectangle_fill start_x (iry.2.2 - row_height)
       layout.total_width row_height bg)
   | Option.none => []) ++
  ((cell_positions layout iry.2.1.cells start_x 0).map
    (cell_body_objs t layout hook registry iry.1 iry.2.2 row_height)).flatten

/-- The border-override instructions of one drawn row (claim C7). -/
def row_override_objs (layout : TableLayout) (art : Bool) (start_x : ℚ) (iry : Nat × Row × ℚ) :
    List Obj :=
  ((cell_positions layout iry.2.1.cells start_x 0).map
    (cell_override_objs layout art iry.2.2 (layout.row_heights.getD iry.1 0))).flatten

/-- Invariant of the heuristic word loop: `current_length` really is the
character count of `current_line`. -/
def wrap_st_ok (st : WrapSt) : Prop :=
  st.current_line.length = st.current_length

/-- The non-whitespace content held by a wrap state. -/
def wrap_st_content (st : WrapSt) : List Char :=
  (st.all_lines.flatten ++ st.current_line).filter (fun x => !is_whitespace x)

/-- Invariant of the metrics word loop: the accumulated width is
non-negative, and positive when the current line is non-empty. -/
def wtm_st_ok (st : WrapStM) : Prop :=
  0 ≤ st.current_width ∧ (st.current_line ≠ [] → 0 < st.current_width)

/-- The non-whitespace content held by a metrics wrap state. -/
def wtm_st_content (st : WrapStM) : List Char :=
  (st.all_lines.flatten ++ st.current_line).filter (fun x => !is_whitespace x)

/-! ## Test fixtures used by witnesses and counterexamples -/

def mk_cell (content : List Char) : Cell :=
  ⟨content, Option.none, 1, 1, false, []⟩

def mk_row (cells : List Cell) : Row :=
  ⟨cells, Option.none, Option.none⟩

/-- A validating table whose only width spec is `Pixels(50)` (claim C1). -/
def tbl_one_pixel : Table :=
  ⟨[mk_row [mk_cell "A".toList]], default_table_style,
   some [ColumnWidth.pixels 50], some 400, 0, Option.none, Option.none⟩

/-- The claim C8 scenario: 3 columns, 2 rows, mixed specs, width 400. -/
def c8_specs : List ColumnWidth :=
  [ColumnWidth.percentage 40, ColumnWidth.auto, ColumnWidth.pixels 80]

def tbl_c8 : Table :=
  ⟨[mk_row [mk_cell "A".toList, mk_cell "B".toList, mk_cell "C".toList],
    mk_row [mk_cell "D".toList, mk_cell "E".toList, mk_cell "F".toList]],
   default_table_style, some c8_specs, some 400, 0, Option.none, Option.none⟩

/-- A table whose single row has no cells (claim C5): it validates
(coverage 0 = column count 0) but layout fails with "no columns". -/
def tbl_empty_row : Table :=
  ⟨[mk_row []], default_table_style, Option.none, Option.none, 0, Option.none, Option.none⟩

/-- A small valid table for the claim C6 witness. -/
def tbl_c6 : Table :=
  ⟨[mk_row [mk_cell "Hi".toList]], default_table_style, Option.none, Option.none, 0,
   Option.none, Option.none⟩

/-- A cell style carrying only a red left-border override (claim C7). -/
def cs_red_left : CellStyle :=
  ⟨Option.none, ⟨0, 0, 0⟩, Option.none, Option.none, false, false, .left, .middle,
   Option.none, some (BorderStyle.solid, 2, ⟨1, 0, 0⟩), Option.none, Option.none,
   Option.none, Option.none⟩

/-- One-cell table with a border override, drawn with default (solid) grid. -/
def tbl_border_override : Table :=
  ⟨[⟨[⟨[], some cs_red_left, 1, 1, false, []⟩], Option.none, Option.none⟩],
   default_table_style, Option.none, Option.none, 0, Option.none, Option.none⟩

def layout_1x1 : TableLayout := ⟨[100], [30], 100, 30⟩

/-- Pagination fixture style: page height, margins, header repetition. -/
def pg_style (ph tm bm : ℚ) (rh : Bool) : TableStyle :=
  { default_table_style with
    page_height := some ph
    top_margin := tm
    bottom_margin := bm
    repeat_headers := rh }

/-- Pagination fixture table: only the style and header count matter for
the row-to-page assignment. -/
def tbl_pg (hdr : Nat) (rh : Bool) : Table :=
  ⟨[], pg_style 100 10 10 rh, Option.none, Option.none, hdr, Option.none, Option.none⟩

/-- A layout fixture carrying only row heights. -/
def hl (hs : List ℚ) : TableLayout := ⟨[], hs, 0, hs.sum⟩

/-- A simple everywhere-positive font metric (5 points per character). -/
def fm_const : FontMetrics :=
  ⟨fun _ _ => 5, fun s _ => (s.length : ℚ) * 5, fun s => List.replicate (2 * s.length) 0⟩

/-! # Theorems -/

/-! ## Generic list helpers -/

theorem flatten_replicate_nil_singleton (n : Nat) :
    (List.replicate n ([[]] : List (List Char))).flatten = List.replicate n [] := by
  induction n with
  | zero => rfl
  | succ k ih => simp [List.replicate_succ, ih]

/-! ## Claim C10: wrap_text is total, non-empty, and degrades gracefully -/

theorem wrap_text_chars_ne_nil (text : List Char) (maxC : Nat) :
    wrap_text_chars text maxC ≠ [] := by
  unfold wrap_text_chars
  split
  · simp
  · dsimp only
    split
    · simp
    · next h => exact h

/-- C10: for every input string, width and font size, `wrap_text` returns a
non-empty list of lines (it is a total function): empty input yields
exactly one empty line, and a zero character budget
(`max_chars_per_line = 0`) returns the entire text unmodified as a single
line instead of looping or panicking. -/
theorem C10_wrap_text_total (text : List Char) (mw fs : ℚ) :
    wrap_text text mw fs ≠ [] ∧ wrap_text [] mw fs = [[]] ∧
    (max_chars_per_line mw fs = 0 → wrap_text text mw fs = [text]) := by
  refine ⟨?_, by simp [wrap_text], ?_⟩
  · unfold wrap_text
    split
    · simp
    · exact wrap_text_chars_ne_nil _ _
  · intro h
    unfold wrap_text
    split
    · next ht => simp [ht]
    · simp [wrap_text_chars, h]

theorem C10_wrap_text_total_witness :
    max_chars_per_line 1 10 = 0 ∧ wrap_text "ab".toList 1 10 = ["ab".toList] := by
  have h : max_chars_per_line 1 10 = 0 := by
    norm_num [max_chars_per_line, rat_to_usize, defaultCharWidthFrac]
  exact ⟨h, (C10_wrap_text_total "ab".toList 1 10).2.2 h⟩

/-! ## Claim C9: consecutive explicit line breaks are preserved -/

theorem nws_ne_nl {s : List Char} (h : ∀ c ∈ s, is_whitespace c = false) :
    ∀ c ∈ s, c ≠ '\n' := by
  intro c hc heq
  have := h c hc
  rw [heq] at this
  simp [is_whitespace] at this

theorem snl_no_nl (s : List Char) (h : ∀ c ∈ s, c ≠ '\n') : split_newlines s = [s] := by
  induction s with
  | nil => rfl
  | cons c rest ih =>
    have hc : c ≠ '\n' := h c (by simp)
    have hr : split_newlines rest = [rest] := ih (fun x hx => h x (by simp [hx]))
    simp [split_newlines, hc, hr]

theorem snl_append (s t : List Char) (h : ∀ c ∈ s, c ≠ '\n') :
    split_newlines (s ++ '\n' :: t) = s :: split_newlines t := by
  induction s with
  | nil => simp [split_newlines]
  | cons c rest ih =>
    have hc : c ≠ '\n' := h c (by simp)
    have hr := ih (fun x hx => h x (by simp [hx]))
    simp only [List.cons_append, split_newlines, hc, if_false, List.append_eq]
    rw [hr]

theorem snl_replicate (K : Nat) (t : List Char) :
    split_newlines (List.replicate K '\n' ++ t) = List.replicate K [] ++ split_newlines t := by
  induction K with
  | zero => simp
  | succ k ih => simp [List.replicate_succ, split_newlines, ih]

theorem trim_nws (s : List Char) (h : ∀ c ∈ s, is_whitespace c = false) : trim s = s := by
  have hdrop : ∀ (l : List Char), (∀ c ∈ l, is_whitespace c = false) →
      l.dropWhile is_whitespace = l := by
    intro l hl
    cases l with
    | nil => rfl
    | cons a rest => simp [List.dropWhile_cons, hl a (by simp)]
  unfold trim
  rw [hdrop s h, hdrop s.reverse (by intro c hc; exact h c (List.mem_reverse.mp hc)),
    List.reverse_reverse]

theorem split_ws_single (s : List Char) (h1 : s ≠ []) (h2 : ∀ c ∈ s, is_whitespace c = false) :
    split_whitespace s = [s] := by
  cases s with
  | nil => exact absurd rfl h1
  | cons c rest =>
    have hc : is_whitespace c = false := h2 c (by simp)
    have htake : rest.takeWhile (fun x => !is_whitespace x) = rest :=
      List.takeWhile_eq_self_iff.mpr (by
        intro a ha
        simp [h2 a (by simp [ha])])
    have hdrop : rest.dropWhile (fun x => !is_whitespace x) = [] :=
      List.dropWhile_eq_nil_iff.mpr (by
        intro a ha
        simp [h2 a (by simp [ha])])
    rw [split_whitespace]
    simp [hc, htake, hdrop, split_whitespace]

theorem wrap_segment_single (maxC : Nat) (s : List Char) (h1 : s ≠ [])
    (h2 : ∀ c ∈ s, is_whitespace c = false) (h3 : s.length ≤ maxC) :
    wrap_segment maxC s = [s] := by
  have hws := split_ws_single s h1 h2
  have htrim := trim_nws s h2
  unfold wrap_segment
  rw [if_neg h1, hws]
  have hstep : wrap_word_step maxC ⟨[], [], 0⟩ s = ⟨[], s, s.length⟩ := by
    unfold wrap_word_step
    have hc1 : ¬(0 < (0:Nat) ∧ maxC < 0 + 1 + s.length) := by omega
    have hc2 : ¬(maxC < s.length) := by omega
    simp [hc1, hc2]
  simp [List.foldl_cons, List.foldl_nil, hstep, htrim, h1]

/-- C9: an input `s1 ++ K newlines ++ s2` (two whitespace-free non-empty
segments separated by `K ≥ 1` consecutive explicit line breaks, each
segment fitting the budget) wraps to the first segment, exactly `K - 1`
empty lines, then the second segment: blank lines are preserved, never
collapsed. In particular `"A\n\nB"` wraps to `["A", "", "B"]`. -/
theorem C9_consecutive_breaks (s1 s2 : List Char) (K : Nat) (mw fs : ℚ)
    (h1 : s1 ≠ []) (h2 : s2 ≠ [])
    (hw1 : ∀ c ∈ s1, is_whitespace c = false) (hw2 : ∀ c ∈ s2, is_whitespace c = false)
    (hK : 1 ≤ K) (hm : 0 < max_chars_per_line mw fs)
    (hl1 : s1.length ≤ max_chars_per_line mw fs)
    (hl2 : s2.length ≤ max_chars_per_line mw fs) :
    wrap_text (s1 ++ List.replicate K '\n' ++ s2) mw fs =
      s1 :: (List.replicate (K - 1) [] ++ [s2]) := by
  obtain ⟨K', rfl⟩ : ∃ K', K = K' + 1 := ⟨K - 1, by omega⟩
  have htext : s1 ++ List.replicate (K' + 1) '\n' ++ s2 ≠ [] := by
    simp [h1]
  unfold wrap_text
  rw [if_neg htext]
  unfold wrap_text_chars
  rw [if_neg (by omega)]
  have hsplit : split_newlines (s1 ++ List.replicate (K' + 1) '\n' ++ s2) =
      s1 :: (List.replicate K' [] ++ split_newlines s2) := by
    have : s1 ++ List.replicate (K' + 1) '\n' ++ s2 =
        s1 ++ '\n' :: (List.replicate K' '\n' ++ s2) := by
      simp [List.replicate_succ]
    rw [this, snl_append s1 _ (nws_ne_nl hw1), snl_replicate]
  rw [hsplit, snl_no_nl s2 (nws_ne_nl hw2)]
  have hmap : (s1 :: (List.replicate K' [] ++ [s2])).map
      (wrap_segment (max_chars_per_line mw fs)) =
      [s1] :: (List.replicate K' [[]] ++ [[s2]]) := by
    rw [List.map_cons, List.map_append, List.map_replicate, List.map_cons, List.map_nil]
    rw [wrap_segment_single _ s1 h1 hw1 hl1, wrap_segment_single _ s2 h2 hw2 hl2]
    have hempty : wrap_segment (max_chars_per_line mw fs) [] = [[]] := by
      simp [wrap_segment]
    rw [hempty]
  rw [hmap]
  have hflat : (([s1] :: (List.replicate K' [[]] ++ [[s2]])) :
      List (List (List Char))).flatten = s1 :: (List.replicate K' [] ++ [s2]) := by
    simp [List.flatten_cons, List.flatten_append, flatten_replicate_nil_singleton]
  rw [hflat]
  simp

theorem C9_consecutive_breaks_witness :
    wrap_text "A\n\nB".toList 200 10 = [['A'], [], ['B']] := by
  have hm : max_chars_per_line 200 10 = 40 := by
    norm_num [max_chars_per_line, rat_to_usize, defaultCharWidthFrac]
    decide
  have h := C9_consecutive_breaks ['A'] ['B'] 2 200 10 (by decide) (by decide)
    (by decide) (by decide) (by decide) (by rw [hm]; decide) (by rw [hm]; decide)
    (by rw [hm]; decide)
  have heq : "A\n\nB".toList = ['A'] ++ List.replicate 2 '\n' ++ ['B'] := by decide
  rw [heq, h]
  decide

/-! ## Claim C8: the mixed-spec end-to-end scenario -/

theorem c8_remaining : remaining_width_of c8_specs 400 = 160 := by
  norm_num [remaining_width_of, total_fixed_width, total_percentage, c8_specs]

theorem c8_share (t : Table) : auto_raw_share c8_specs 400 t 1 = 160 := by
  have hauto : auto_columns c8_specs = [1] := by decide
  have hprop : auto_total_proportion c8_specs t = estimate_column_content_width t 1 := by
    simp [auto_total_proportion, hauto]
  unfold auto_raw_share
  rw [c8_remaining, hprop, hauto]
  by_cases hE : 0 < estimate_column_content_width t 1
  · rw [if_pos hE, div_self (ne_of_gt hE), mul_one]
  · rw [if_neg hE]
    norm_num

theorem c8_resolve (t : Table) : resolve_column_widths c8_specs 400 t = [160, 160, 80] := by
  have hres : resolve_column_widths c8_specs 400 t =
      [400 * (40 / 100),
       if 0 < remaining_width_of c8_specs 400 then
         max (auto_raw_share c8_specs 400 t 1) MIN_COLUMN_WIDTH
       else MIN_COLUMN_WIDTH,
       80] := rfl
  rw [hres, c8_remaining, if_pos (by norm_num), c8_share]
  norm_num [MIN_COLUMN_WIDTH]

/-- C8: for any table carrying column specs
`[Percentage(40), Auto, Pixels(80)]` with total width 400 (3 columns,
2 rows as in the scenario), layout resolves the percentage column to
exactly 160 points, the pixel column to exactly 80 points, and the Auto
column receives the remaining width (which is 160, independent of the
content estimate; the minimum-width floor is not binding). -/
theorem C8_scenario (t : Table)
    (hspec : t.column_widths = some c8_specs)
    (htw : t.total_width = some 400)
    (hrows : t.rows.length = 2)
    (hcov : ∀ r ∈ t.rows, row_coverage r = 3) :
    ∃ l, calculate_layout t = .ok l ∧
      l.column_widths = [160, remaining_width_of c8_specs 400, 80] ∧
      remaining_width_of c8_specs 400 = 160 := by
  have hcc : t.column_count = 3 := by
    cases hr : t.rows with
    | nil => rw [hr] at hrows; simp at hrows
    | cons r rs =>
      have : r ∈ t.rows := by rw [hr]; simp
      unfold Table.column_count
      rw [hr]
      simp [hcov r this]
  have hval : t.validate = .ok () := by
    have hne : t.rows ≠ [] := by
      intro h
      rw [h] at hrows
      simp at hrows
    have hpct : ¬(100 < total_percentage c8_specs) := by
      norm_num [total_percentage, c8_specs]
    have hlen : ¬(c8_specs.length ≠ t.column_count) := by
      rw [hcc]
      decide
    have hany : (t.rows.any fun r => decide (row_coverage r ≠ t.column_count)) = false := by
      rw [List.any_eq_false]
      intro r hr
      simp [hcov r hr, hcc]
    unfold Table.validate
    rw [hspec]
    simp [hne, hany, hlen, hpct]
    intro r hr
    rw [hcov r hr, hcc]
  unfold calculate_layout
  rw [hval, hspec]
  simp only [htw, Option.getD_some]
  exact ⟨_, rfl, by rw [c8_resolve, c8_remaining], c8_remaining⟩

theorem C8_scenario_witness :
    tbl_c8.column_widths = some c8_specs ∧
    (∃ l, calculate_layout tbl_c8 = .ok l ∧
      l.column_widths = [160, remaining_width_of c8_specs 400, 80] ∧
      remaining_width_of c8_specs 400 = 160) :=
  ⟨rfl, C8_scenario tbl_c8 rfl rfl (by decide) (by decide)⟩

/-! ## Claim C1: length and sum of the resolved column widths -/

/-- C1 counterexample: `tbl_one_pixel` (one column, spec `Pixels(50)`,
declared total width 400) passes validation, yet the resolved column
widths sum to 50, not 400: with only fixed or percentage specs nothing
re-normalizes the widths to the available total. -/
theorem C1_sum_counterexample :
    tbl_one_pixel.validate = .ok () ∧
    tbl_one_pixel.total_width = some 400 ∧
    tbl_one_pixel.column_widths = some [ColumnWidth.pixels 50] ∧
    (resolve_column_widths [ColumnWidth.pixels 50] 400 tbl_one_pixel).sum ≠ 400 := by
  refine ⟨?_, rfl, rfl, ?_⟩
  · unfold Table.validate
    norm_num [tbl_one_pixel, mk_row, mk_cell, Table.column_count, row_coverage,
      total_percentage]
  · have h : resolve_column_widths [ColumnWidth.pixels 50] 400 tbl_one_pixel = [50] := rfl
    rw [h]
    norm_num

theorem sum_map_const_rat (c : ℚ) : ∀ (l : List Nat), (l.map fun _ => c).sum = l.length * c := by
  intro l
  induction l with
  | nil => simp
  | cons a rest ih => simp [ih]; ring

/-- Splitting the resolved-width sum by spec kind: fixed total, percentage
total, and the auto shares (parameterized by the auto-share function `g`). -/
theorem resolve_sum_split (aw : ℚ) (g : Nat → ℚ) :
    ∀ (l : List ColumnWidth) (n : Nat),
      ((List.enumFrom n l).map (fun is =>
        match is.2 with
        | ColumnWidth.pixels w => w
        | ColumnWidth.percentage p => aw * (p / 100)
        | ColumnWidth.auto => g is.1)).sum
      = total_fixed_width l + aw * (total_percentage l / 100) +
        (((List.enumFrom n l).filterMap (fun is =>
          match is.2 with
          | ColumnWidth.auto => some is.1
          | _ => Option.none)).map g).sum := by
  intro l
  induction l with
  | nil =>
    intro n
    simp [total_fixed_width, total_percentage]
  | cons s rest ih =>
    intro n
    cases s with
    | pixels w =>
      simp only [List.enumFrom, List.map_cons, List.sum_cons, List.filterMap_cons,
        total_fixed_width, total_percentage, ih (n + 1)]
      simp only [total_fixed_width, total_percentage] at ih ⊢
      simp [List.map_cons, List.sum_cons]
      ring
    | percentage p =>
      simp only [List.enumFrom, List.map_cons, List.sum_cons, List.filterMap_cons, ih (n + 1)]
      simp only [total_fixed_width, total_percentage]
      simp [List.map_cons, List.sum_cons]
      ring
    | auto =>
      simp only [List.enumFrom, List.map_cons, List.sum_cons, List.filterMap_cons, ih (n + 1)]
      simp only [total_fixed_width, total_percentage]
      simp [List.map_cons, List.sum_cons]
      ring

/-- The un-floored auto shares sum to exactly the remaining width. -/
theorem auto_share_sum (specs : List ColumnWidth) (aw : ℚ) (t : Table)
    (hne : auto_columns specs ≠ []) :
    ((auto_columns specs).map (auto_raw_share specs aw t)).sum =
      remaining_width_of specs aw := by
  by_cases hP : 0 < auto_total_proportion specs t
  · have h1 : ∀ i ∈ auto_columns specs, auto_raw_share specs aw t i =
        remaining_width_of specs aw / auto_total_proportion specs t *
          estimate_column_content_width t i := by
      intro i _
      unfold auto_raw_share
      rw [if_pos hP]
      ring
    rw [List.map_congr_left h1, List.sum_map_mul_left]
    have h2 : ((auto_columns specs).map fun i => estimate_column_content_width t i).sum =
        auto_total_proportion specs t := rfl
    rw [h2, div_mul_cancel₀ _ (ne_of_gt hP)]
  · have h1 : ∀ i ∈ auto_columns specs, auto_raw_share specs aw t i =
        remaining_width_of specs aw / ((auto_columns specs).length : ℚ) := by
      intro i _
      unfold auto_raw_share
      rw [if_neg hP]
    rw [List.map_congr_left h1, sum_map_const_rat]
    have hk : ((auto_columns specs).length : ℚ) ≠ 0 := by
      simpa using hne
    rw [mul_div_cancel₀ _ hk]

/-- C1 amended: the resolved width vector always has length N (for both the
spec-driven and the content-driven path), and it sums to the available
width provided at least one Auto column exists, the remaining width after
fixed and percentage allocations is positive, and no Auto column is floored
at the minimum column width. (With only fixed/percentage specs, or an
exhausted remaining width, the sum can differ from the declared total —
see the counterexample.) -/
theorem C1_resolved_length_and_sum (specs : List ColumnWidth) (aw : ℚ) (t : Table)
    (hne : auto_columns specs ≠ [])
    (hrem : 0 < remaining_width_of specs aw)
    (hfloor : ∀ i ∈ auto_columns specs,
      MIN_COLUMN_WIDTH ≤ auto_raw_share specs aw t i) :
    (resolve_column_widths specs aw t).length = specs.length ∧
    (resolve_column_widths specs aw t).sum = aw ∧
    (∀ t' : Table, t'.column_count ≠ 0 →
      ∃ ws, calculate_column_widths t' = .ok ws ∧ ws.length = t'.column_count) := by
  refine ⟨by simp [resolve_column_widths], ?_, ?_⟩
  · have h0 : (resolve_column_widths specs aw t).sum =
        ((List.enumFrom 0 specs).map (fun is =>
          match is.2 with
          | ColumnWidth.pixels w => w
          | ColumnWidth.percentage p => aw * (p / 100)
          | ColumnWidth.auto =>
            (fun i => if 0 < remaining_width_of specs aw then
              max (auto_raw_share specs aw t i) MIN_COLUMN_WIDTH
            else MIN_COLUMN_WIDTH) is.1)).sum := rfl
    rw [h0, resolve_sum_split aw (fun i =>
      if 0 < remaining_width_of specs aw then
        max (auto_raw_share specs aw t i) MIN_COLUMN_WIDTH
      else MIN_COLUMN_WIDTH) specs 0]
    have hautos : ((List.enumFrom 0 specs).filterMap (fun is =>
        match is.2 with
        | ColumnWidth.auto => some is.1
        | _ => Option.none)) = auto_columns specs := rfl
    rw [hautos]
    have hg : ∀ i ∈ auto_columns specs,
        (if 0 < remaining_width_of specs aw then
          max (auto_raw_share specs aw t i) MIN_COLUMN_WIDTH
        else MIN_COLUMN_WIDTH) = auto_raw_share specs aw t i := by
      intro i hi
      rw [if_pos hrem]
      exact max_eq_left (hfloor i hi)
    rw [List.map_congr_left hg, auto_share_sum specs aw t hne]
    unfold remaining_width_of
    ring
  · intro t' ht'
    refine ⟨(List.range t'.column_count).map (fun i =>
      max (column_max_content_width t' i + t'.style.padding.left + t'.style.padding.right)
        MIN_COLUMN_WIDTH), ?_, ?_⟩
    · unfold calculate_column_widths
      rw [if_neg ht']
    · simp

theorem C1_resolved_length_and_sum_witness :
    auto_columns [ColumnWidth.auto] ≠ [] ∧
    0 < remaining_width_of [ColumnWidth.auto] 400 ∧
    (∀ i ∈ auto_columns [ColumnWidth.auto],
      MIN_COLUMN_WIDTH ≤ auto_raw_share [ColumnWidth.auto] 400 tbl_empty_row i) ∧
    (resolve_column_widths [ColumnWidth.auto] 400 tbl_empty_row).sum = 400 := by
  have h1 : auto_columns [ColumnWidth.auto] ≠ [] := by decide
  have h2 : 0 < remaining_width_of [ColumnWidth.auto] 400 := by
    norm_num [remaining_width_of, total_fixed_width, total_percentage]
  have hrw : remaining_width_of [ColumnWidth.auto] 400 = 400 := by
    norm_num [remaining_width_of, total_fixed_width, total_percentage]
  have hest : estimate_column_content_width tbl_empty_row 0 = 10 := by
    norm_num [estimate_column_content_width, column_max_content_width, tbl_empty_row,
      mk_row, default_table_style]
  have hshare : auto_raw_share [ColumnWidth.auto] 400 tbl_empty_row 0 = 400 := by
    have hac : auto_columns [ColumnWidth.auto] = [0] := by decide
    have hprop : auto_total_proportion [ColumnWidth.auto] tbl_empty_row = 10 := by
      simp [auto_total_proportion, hac, hest]
    unfold auto_raw_share
    rw [hprop, if_pos (by norm_num : (0:ℚ) < 10), hest, hrw]
    norm_num
  have h3 : ∀ i ∈ auto_columns [ColumnWidth.auto],
      MIN_COLUMN_WIDTH ≤ auto_raw_share [ColumnWidth.auto] 400 tbl_empty_row i := by
    intro i hi
    have : i = 0 := by
      have he : auto_columns [ColumnWidth.auto] = [0] := by decide
      rw [he] at hi
      simpa using hi
    rw [this, hshare]
    norm_num [MIN_COLUMN_WIDTH]
  exact ⟨h1, h2, h3,
    (C1_resolved_length_and_sum [ColumnWidth.auto] 400 tbl_empty_row h1 h2 h3).2.1⟩

/-! ## Claim C5: when layout computation errors -/

theorem validate_error_iff (t : Table) :
    (∃ e, t.validate = .error e) ↔ claimed_error_cond t = true := by
  unfold Table.validate claimed_error_cond
  by_cases h1 : t.rows.isEmpty
  · simp [h1]
  · by_cases h2 : ∃ x ∈ t.rows, ¬row_coverage x = t.column_count
    · simp [h1, h2]
    · cases hcw : t.column_widths with
      | none => simp [h1, h2, hcw]
      | some specs =>
        by_cases h3 : specs.length ≠ t.column_count
        · simp [h1, h2, hcw, h3]
        · by_cases h4 : (100 : ℚ) < total_percentage specs
          · simp [h1, h2, hcw, h3, h4]
          · simp [h1, h2, hcw, h3, h4]

/-- C5 counterexample: `tbl_empty_row` (single row with no cells, no width
specs) satisfies none of the four error conditions listed by the claim,
yet `calculate_layout` returns an error — the content-driven width path
fails with a "no columns" layout error after validation passes. -/
theorem C5_error_iff_counterexample :
    claimed_error_cond tbl_empty_row = false ∧
    calculate_layout tbl_empty_row = .error .layoutError := by
  constructor
  · decide
  · rfl

/-- C5 amended: `calculate_layout` returns an error if and only if one of
the claim's four conditions holds (no rows; a row's colspan coverage
differs from the column count; a spec list whose length differs from the
column count; percentage specs summing over 100) OR, additionally, the
table has no explicit width specs and its column count is zero (a first
row with no cells). Validation still runs before any widths or heights are
computed, so no instruction stream is produced for an invalid table. -/
theorem C5_layout_error_iff (t : Table) :
    (∃ e, calculate_layout t = .error e) ↔
      (claimed_error_cond t = true ∨
        (t.column_widths = Option.none ∧ t.rows ≠ [] ∧ t.column_count = 0)) := by
  unfold calculate_layout
  cases hv : t.validate with
  | error e =>
    have hclaim : claimed_error_cond t = true := (validate_error_iff t).mp ⟨e, hv⟩
    simp [hclaim]
  | ok u =>
    have hclaim : claimed_error_cond t = false := by
      cases hb : claimed_error_cond t
      · rfl
      · obtain ⟨e, he⟩ := (validate_error_iff t).mpr hb
        rw [hv] at he
        exact absurd he (by simp)
    have hrows : t.rows ≠ [] := by
      intro hnil
      unfold Table.validate at hv
      rw [hnil] at hv
      simp at hv
    cases u
    cases hcw : t.column_widths with
    | some specs => simp [hclaim, hcw]
    | none =>
      unfold calculate_column_widths
      by_cases hcc : t.column_count = 0
      · simp [hclaim, hcw, hcc, hrows]
      · simp [hclaim, hcw, hcc, hrows]

/-! ## Claim C6: the row-height formula -/

theorem cells_le_coverage (r : Row) : r.cells.length ≤ row_coverage r := by
  unfold row_coverage
  induction r.cells with
  | nil => simp
  | cons c rest ih =>
    simp only [List.map_cons, List.sum_cons, List.length_cons]
    have : 1 ≤ max c.colspan 1 := le_max_right _ _
    omega

theorem enum_fst_lt {α : Type} :
    ∀ (l : List α) (n : Nat) (p : Nat × α), p ∈ List.enumFrom n l → p.1 < n + l.length := by
  intro l
  induction l with
  | nil => simp [List.enumFrom]
  | cons x rest ih =>
    intro n p hp
    simp only [List.enumFrom, List.mem_cons] at hp
    cases hp with
    | inl h => simp [h]
    | inr h =>
      have := ih (n + 1) p h
      simp only [List.length_cons]
      omega

theorem foldr_max_init (l : List ℚ) : ∀ (a x : ℚ), l.foldr max (max a x) = max x (l.foldr max a) := by
  induction l with
  | nil => intro a x; simp [max_comm]
  | cons y rest ih =>
    intro a x
    simp only [List.foldr_cons, ih a x]
    rw [max_left_comm]

theorem validate_ok_coverage (t : Table) (h : t.validate = .ok ()) :
    ∀ r ∈ t.rows, row_coverage r = t.column_count := by
  intro r hr
  by_contra hne
  unfold Table.validate at h
  by_cases h1 : t.rows.isEmpty
  · rw [if_pos h1] at h
    exact absurd h (by simp)
  · rw [if_neg h1] at h
    have hany : (t.rows.any fun r => decide (row_coverage r ≠ t.column_count)) = true :=
      List.any_eq_true.mpr ⟨r, hr, by simpa using hne⟩
    rw [if_pos hany] at h
    exact absurd h (by simp)

/-- The per-cell estimated height in `calculate_row_heights` equals the
claim's formula. -/
theorem claimed_cell_eq (t : Table) (cw : List ℚ) (i : Nat) (c : Cell) :
    claimed_cell_needed_height t cw i c =
      (if c.text_wrap then
        cell_wrap_height t c (cw.getD i 0 - t.style.padding.left - t.style.padding.right)
          (cell_font_size t c)
      else font_size_to_height (cell_font_size t c)) := by
  unfold claimed_cell_needed_height cell_wrap_height font_size_to_height
  cases c.text_wrap with
  | false => simp
  | true =>
    cases metrics_for_cell t c with
    | none =>
      simp [calculate_wrapped_text_height]
    | some m =>
      simp [calculate_wrapped_text_height_with_metrics]

theorem row_fold_eq (t : Table) (cw : List ℚ) :
    ∀ (l : List (Nat × Cell)) (a : ℚ), (∀ p ∈ l, p.1 < cw.length) →
      l.foldl (fun acc ic =>
        if ic.1 < cw.length then
          max acc (if ic.2.text_wrap then
            cell_wrap_height t ic.2 (cw.getD ic.1 0 - t.style.padding.left -
              t.style.padding.right) (cell_font_size t ic.2)
          else font_size_to_height (cell_font_size t ic.2))
        else acc) a
      = (l.map (fun ic => claimed_cell_needed_height t cw ic.1 ic.2)).foldr max a := by
  intro l
  induction l with
  | nil => intro a _; simp
  | cons p rest ih =>
    intro a hb
    have hp : p.1 < cw.length := hb p (by simp)
    simp only [List.foldl_cons, List.map_cons, List.foldr_cons, if_pos hp]
    rw [ih _ (fun q hq => hb q (by simp [hq]))]
    rw [claimed_cell_eq, foldr_max_init]

/-- C6: for every row of a valid table (and resolved widths of the right
length): an explicit row height is used verbatim; otherwise the height is
the maximum over the row's cells of the cell's needed height
(`wrapped_line_count * font_size * line_height_multiplier` when wrapping is
enabled, one line's height otherwise), plus top and bottom padding, floored
at one line's height at the table's default font size. -/
theorem C6_row_heights (t : Table) (column_widths : List ℚ)
    (hval : t.validate = .ok ())
    (hlen : column_widths.length = t.column_count) :
    calculate_row_heights t column_widths =
      t.rows.map (claimed_row_height t column_widths) := by
  unfold calculate_row_heights claimed_row_height
  apply List.map_congr_left
  intro r hr
  cases hh : r.height with
  | some h => simp
  | none =>
    have hcov : row_coverage r = t.column_count := validate_ok_coverage t hval r hr
    have hcells : r.cells.length ≤ column_widths.length := by
      rw [hlen, ← hcov]
      exact cells_le_coverage r
    have hbound : ∀ p ∈ r.cells.enum, p.1 < column_widths.length := by
      intro p hp
      have := enum_fst_lt r.cells 0 p hp
      omega
    simp only []
    rw [row_fold_eq t column_widths r.cells.enum 0 hbound]

theorem C6_row_heights_witness :
    tbl_c6.validate = .ok () ∧ ([100] : List ℚ).length = tbl_c6.column_count ∧
    calculate_row_heights tbl_c6 [100] =
      tbl_c6.rows.map (claimed_row_height tbl_c6 [100]) := by
  have h1 : tbl_c6.validate = .ok () := rfl
  have h2 : ([100] : List ℚ).length = tbl_c6.column_count := by decide
  exact ⟨h1, h2, C6_row_heights tbl_c6 [100] h1 h2⟩

/-! ## Claims C3 and C4: pagination row groups -/

theorem run_length (j len : Nat) : (run j len).length = len := by
  simp [run]

theorem run_cons (j len : Nat) : run j (len + 1) = j :: run (j + 1) len := by
  simp only [run, List.range_succ_eq_map, List.map_cons, List.map_map, Nat.add_zero]
  congr 1
  apply List.map_congr_left
  intro k _
  simp only [Function.comp_apply]
  omega

theorem run_snoc (j len : Nat) : run j (len + 1) = run j len ++ [j + len] := by
  simp [run, List.range_succ]

theorem run_zero_start (len : Nat) : run 0 len = List.range len := by
  simp [run]

theorem mem_run {x j len : Nat} : x ∈ run j len ↔ j ≤ x ∧ x < j + len := by
  simp only [run, List.mem_map, List.mem_range]
  constructor
  · rintro ⟨k, hk, rfl⟩
    omega
  · rintro ⟨h1, h2⟩
    exact ⟨x - j, by omega, by omega⟩

theorem run_ne_nil (j : Nat) {len : Nat} (h : 1 ≤ len) : run j len ≠ [] := by
  intro hc
  have := congrArg List.length hc
  rw [run_length] at this
  simp at this
  omega

theorem paginate_join_noseed (t : Table) (heights : List ℚ) (ph : ℚ)
    (hns : ¬(t.style.repeat_headers ∧ 0 < t.header_rows)) :
    ∀ (rem : List ℚ) (idx : Nat) (y : ℚ) (g : List Nat) (acc : List (List Nat)),
      (paginate_loop t heights ph idx rem y g acc).1.flatten =
        acc.flatten ++ g ++ run idx rem.length := by
  intro rem
  induction rem with
  | nil =>
    intro idx y g acc
    by_cases hg : g = []
    · simp [paginate_loop, hg, run]
    · simp [paginate_loop, hg, run]
  | cons h rest ih =>
    intro idx y g acc
    simp only [paginate_loop]
    by_cases hbr : y - h < t.style.bottom_margin ∧ g ≠ []
    · rw [if_pos hbr, if_neg (by tauto)]
      rw [ih]
      simp only [List.length_cons, run_cons, List.flatten_append, List.flatten_cons,
        List.flatten_nil, List.append_nil, List.append_assoc, List.singleton_append]
    · rw [if_neg hbr, ih]
      simp only [List.length_cons, run_cons, List.append_assoc, List.singleton_append]

theorem paginate_sorted (t : Table) (heights : List ℚ) (ph : ℚ) :
    ∀ (rem : List ℚ) (idx : Nat) (y : ℚ) (g : List Nat) (acc : List (List Nat)),
      (∀ gr ∈ acc, gr.Pairwise (· < ·)) →
      g.Pairwise (· < ·) →
      (∀ x ∈ g, x < idx) →
      ∀ gr ∈ (paginate_loop t heights ph idx rem y g acc).1, gr.Pairwise (· < ·) := by
  intro rem
  induction rem with
  | nil =>
    intro idx y g acc hacc hg _
    by_cases hge : g = []
    · simpa [paginate_loop, hge] using hacc
    · intro gr hgr
      simp only [paginate_loop, if_neg hge] at hgr
      rw [List.mem_append] at hgr
      rcases hgr with hin | hin
      · exact hacc gr hin
      · simp at hin
        rw [hin]
        exact hg
  | cons h rest ih =>
    intro idx y g acc hacc hg hlt
    simp only [paginate_loop]
    by_cases hbr : y - h < t.style.bottom_margin ∧ g ≠ []
    · rw [if_pos hbr]
      have hacc1 : ∀ gr ∈ acc ++ [g], gr.Pairwise (· < ·) := by
        intro gr hgr
        rw [List.mem_append] at hgr
        rcases hgr with hin | hin
        · exact hacc gr hin
        · simp at hin
          rw [hin]
          exact hg
      by_cases hseed : t.style.repeat_headers ∧ 0 < t.header_rows ∧ t.header_rows ≤ idx
      · rw [if_pos hseed]
        apply ih _ _ _ _ hacc1
        · rw [List.pairwise_append]
          refine ⟨List.pairwise_lt_range _, by simp, ?_⟩
          intro a ha b hb
          rw [List.mem_range] at ha
          simp at hb
          omega
        · intro x hx
          rw [List.mem_append] at hx
          rcases hx with hin | hin
          · rw [List.mem_range] at hin
            omega
          · simp at hin
            omega
      · rw [if_neg hseed]
        apply ih _ _ _ _ hacc1
        · simp
        · intro x hx
          simp at hx
          omega
    · rw [if_neg hbr]
      apply ih
      · exact hacc
      · rw [List.pairwise_append]
        refine ⟨hg, by simp, ?_⟩
        intro a ha b hb
        simp at hb
        rw [hb]
        exact hlt a ha
      · intro x hx
        rw [List.mem_append] at hx
        rcases hx with hin | hin
        · have := hlt x hin
          omega
        · simp at hin
          omega

theorem paginate_count (t : Table) (heights : List ℚ) (ph : ℚ) (i : Nat)
    (hi : t.header_rows ≤ i) :
    ∀ (rem : List ℚ) (idx : Nat) (y : ℚ) (g : List Nat) (acc : List (List Nat)),
      (paginate_loop t heights ph idx rem y g acc).1.flatten.count i =
        (acc.flatten ++ g).count i +
          (if idx ≤ i ∧ i < idx + rem.length then 1 else 0) := by
  intro rem
  induction rem with
  | nil =>
    intro idx y g acc
    by_cases hge : g = []
    · simp [paginate_loop, hge]
    · simp only [paginate_loop, if_neg hge, List.length_nil]
      rw [List.flatten_append]
      simp
  | cons h rest ih =>
    intro idx y g acc
    simp only [paginate_loop]
    by_cases hbr : y - h < t.style.bottom_margin ∧ g ≠ []
    · rw [if_pos hbr]
      by_cases hseed : t.style.repeat_headers ∧ 0 < t.header_rows ∧ t.header_rows ≤ idx
      · rw [if_pos hseed, ih]
        have hrange : (List.range t.header_rows).count i = 0 := by
          apply List.count_eq_zero_of_not_mem
          rw [List.mem_range]
          omega
        simp only [List.flatten_append, List.flatten_cons, List.flatten_nil,
          List.append_nil, List.count_append, List.count_singleton', hrange,
          List.length_cons]
        split_ifs <;> omega
      · rw [if_neg hseed, ih]
        simp only [List.flatten_append, List.flatten_cons, List.flatten_nil,
          List.append_nil, List.count_append, List.count_singleton', List.length_cons]
        split_ifs <;> omega
    · rw [if_neg hbr, ih]
      simp only [List.count_append, List.count_singleton', List.length_cons]
      split_ifs <;> omega

/-- C3 counterexample: a two-row table with one repeating header row and a
break before row 1 yields the groups `[[0], [0, 1]]` — row 0 appears in two
pages' row groups, so "every row index appears in exactly one page's row
group" fails when header repetition is on. -/
theorem C3_pagination_counterexample :
    (draw_table_paginated_groups (tbl_pg 1 true) (hl [10, 10]) 25).1 = [[0], [0, 1]] ∧
    ((draw_table_paginated_groups (tbl_pg 1 true) (hl [10, 10]) 25).1.countP
      (fun g => decide (0 ∈ g))) ≠ 1 := by
  have hgroups : (draw_table_paginated_groups (tbl_pg 1 true) (hl [10, 10]) 25).1 =
      [[0], [0, 1]] := by
    unfold draw_table_paginated_groups hl tbl_pg pg_style
    norm_num [paginate_loop, default_table_style]
    decide
  refine ⟨hgroups, ?_⟩
  rw [hgroups]
  decide

/-- C3 amended: (a) when header repetition is off (or there are no header
rows), the concatenation of the page row groups is exactly `0, …, n-1` in
order, so every row appears in exactly one group; (b) in general every
page's row group is strictly increasing — a row is never split across a
page boundary and groups are emitted in increasing row order; (c) every
non-header row index appears in exactly one page's row group even when
header repetition is on (header rows may be re-emitted on continuation
pages, see the counterexample). -/
theorem C3_pagination_amended (t : Table) (layout : TableLayout) (start_y : ℚ) :
    (¬(t.style.repeat_headers ∧ 0 < t.header_rows) →
      (draw_table_paginated_groups t layout start_y).1.flatten =
        List.range layout.row_heights.length) ∧
    (∀ g ∈ (draw_table_paginated_groups t layout start_y).1, g.Pairwise (· < ·)) ∧
    (∀ i, t.header_rows ≤ i →
      (draw_table_paginated_groups t layout start_y).1.flatten.count i =
        if i < layout.row_heights.length then 1 else 0) := by
  refine ⟨?_, ?_, ?_⟩
  · intro hns
    unfold draw_table_paginated_groups
    rw [paginate_join_noseed t _ _ hns]
    simp [run_zero_start]
  · unfold draw_table_paginated_groups
    exact paginate_sorted _ _ _ _ 0 _ [] [] (by simp) (by simp) (by simp)
  · intro i hi
    unfold draw_table_paginated_groups
    rw [paginate_count t _ _ i hi]
    simp

theorem C3_pagination_amended_witness :
    (¬((tbl_pg 1 false).style.repeat_headers ∧ 0 < (tbl_pg 1 false).header_rows)) ∧
    (draw_table_paginated_groups (tbl_pg 1 false) (hl [10, 10]) 25).1.flatten =
      List.range (hl [10, 10]).row_heights.length ∧
    (draw_table_paginated_groups (tbl_pg 1 false) (hl [10, 10]) 25).1.flatten.count 5 =
      if 5 < (hl [10, 10]).row_heights.length then 1 else 0 := by
  have hns : ¬((tbl_pg 1 false).style.repeat_headers ∧ 0 < (tbl_pg 1 false).header_rows) := by
    intro hc
    have : (tbl_pg 1 false).style.repeat_headers = false := rfl
    rw [this] at hc
    exact absurd hc.1 (by simp)
  exact ⟨hns, (C3_pagination_amended (tbl_pg 1 false) (hl [10, 10]) 25).1 hns,
    (C3_pagination_amended (tbl_pg 1 false) (hl [10, 10]) 25).2.2 5 (by decide)⟩

theorem run_one (j : Nat) : run j 1 = [j] := by
  have := run_snoc j 0
  simpa [run] using this

/-- C4 counterexample: with two header rows that do not fit on the first
page together, the page break falls inside the header block
(`row_idx = 1 < header_rows = 2`), the seeding guard `row_idx >= header_rows`
fails, and the continuation page's group is `[1]` — it does not begin with
the first two row indices. -/
theorem C4_counterexample :
    (tbl_pg 2 true).style.repeat_headers = true ∧ 0 < (tbl_pg 2 true).header_rows ∧
    (draw_table_paginated_groups (tbl_pg 2 true) (hl [50, 50]) 55).1 = [[0], [1]] ∧
    ¬(∀ g ∈ (draw_table_paginated_groups (tbl_pg 2 true) (hl [50, 50]) 55).1.tail,
        g.take (tbl_pg 2 true).header_rows = List.range (tbl_pg 2 true).header_rows) := by
  have hgroups : (draw_table_paginated_groups (tbl_pg 2 true) (hl [50, 50]) 55).1 =
      [[0], [1]] := by
    unfold draw_table_paginated_groups hl tbl_pg pg_style
    norm_num [paginate_loop, default_table_style]
  refine ⟨rfl, by decide, hgroups, ?_⟩
  intro hall
  rw [hgroups] at hall
  exact absurd (hall [1] (by decide)) (by decide)

theorem paginate_shape (t : Table) (heights : List ℚ) (ph : ℚ)
    (hrep : t.style.repeat_headers = true) (hH : 0 < t.header_rows) :
    ∀ (rem : List ℚ) (idx : Nat) (y : ℚ) (g : List Nat) (acc : List (List Nat)),
      (∀ gr ∈ acc.tail, cont_group_ok t.header_rows gr) →
      ((acc = [] ∧ g = run 0 idx) ∨
        (acc ≠ [] ∧ ∃ j len, 1 ≤ len ∧ j + len = idx ∧
          ((t.header_rows ≤ j ∧ g = List.range t.header_rows ++ run j len) ∨
           (1 ≤ j ∧ j < t.header_rows ∧ g = run j len)))) →
      ∀ gr ∈ (paginate_loop t heights ph idx rem y g acc).1.tail,
        cont_group_ok t.header_rows gr := by
  have tail_append : ∀ (acc : List (List Nat)) (g : List Nat), acc ≠ [] →
      (acc ++ [g]).tail = acc.tail ++ [g] := by
    intro acc g hne
    cases acc with
    | nil => exact absurd rfl hne
    | cons a as => simp
  have g_cont : ∀ (idx : Nat) (g : List Nat),
      (∃ j len, 1 ≤ len ∧ j + len = idx ∧
        ((t.header_rows ≤ j ∧ g = List.range t.header_rows ++ run j len) ∨
         (1 ≤ j ∧ j < t.header_rows ∧ g = run j len))) →
      cont_group_ok t.header_rows g := by
    rintro idx g ⟨j, len, hlen, _, hsh⟩
    exact ⟨j, len, hlen, by tauto⟩
  intro rem
  induction rem with
  | nil =>
    intro idx y g acc hacc hg gr hgr
    by_cases hge : g = []
    · simp only [paginate_loop, if_pos hge] at hgr
      exact hacc gr hgr
    · simp only [paginate_loop, if_neg hge] at hgr
      rcases hg with ⟨hae, _⟩ | ⟨hane, hsh⟩
      · rw [hae] at hgr
        simp at hgr
      · rw [tail_append acc g hane, List.mem_append] at hgr
        rcases hgr with hin | hin
        · exact hacc gr hin
        · simp at hin
          rw [hin]
          exact g_cont idx g hsh
  | cons h rest ih =>
    intro idx y g acc hacc hg
    simp only [paginate_loop]
    by_cases hbr : y - h < t.style.bottom_margin ∧ g ≠ []
    · rw [if_pos hbr]
      have hidx1 : 1 ≤ idx := by
        rcases hg with ⟨_, hga⟩ | ⟨_, j, len, hlen, hjl, _⟩
        · by_contra hc
          push_neg at hc
          interval_cases idx
          exact hbr.2 (by rw [hga]; rfl)
        · omega
      have hacc1 : ∀ gr ∈ (acc ++ [g]).tail, cont_group_ok t.header_rows gr := by
        intro gr hgr
        rcases hg with ⟨hae, _⟩ | ⟨hane, hsh⟩
        · rw [hae] at hgr
          simp at hgr
        · rw [tail_append acc g hane, List.mem_append] at hgr
          rcases hgr with hin | hin
          · exact hacc gr hin
          · simp at hin
            rw [hin]
            exact g_cont idx g hsh
      by_cases hseed : t.style.repeat_headers ∧ 0 < t.header_rows ∧ t.header_rows ≤ idx
      · rw [if_pos hseed]
        apply ih _ _ _ _ hacc1
        refine Or.inr ⟨by simp, idx, 1, le_refl 1, rfl, Or.inl ⟨hseed.2.2, ?_⟩⟩
        rw [run_one]
      · rw [if_neg hseed]
        have hidxH : idx < t.header_rows := by
          by_contra hc
          push_neg at hc
          exact hseed ⟨hrep, hH, hc⟩
        apply ih _ _ _ _ hacc1
        refine Or.inr ⟨by simp, idx, 1, le_refl 1, rfl, Or.inr ⟨hidx1, hidxH, ?_⟩⟩
        rw [run_one]
    · rw [if_neg hbr]
      apply ih _ _ _ _ hacc
      rcases hg with ⟨hae, hga⟩ | ⟨hane, j, len, hlen, hjl, hsh⟩
      · refine Or.inl ⟨hae, ?_⟩
        rw [hga]
        have := run_snoc 0 idx
        simp only [Nat.zero_add] at this
        rw [← this]
      · refine Or.inr ⟨hane, j, len + 1, by omega, by omega, ?_⟩
        rcases hsh with ⟨hj, hgeq⟩ | ⟨hj1, hj2, hgeq⟩
        · refine Or.inl ⟨hj, ?_⟩
          rw [hgeq, run_snoc, hjl]
          simp [List.append_assoc]
        · refine Or.inr ⟨hj1, hj2, ?_⟩
          rw [hgeq, run_snoc, hjl]

/-- C4 amended: when header repetition is enabled and H = header-row-count
is positive, every continuation page's row group either (a) breaks at a row
index `j ≥ H` and then begins with exactly the header rows `0..H-1`
followed by that page's naturally-assigned consecutive rows from `j`, or
(b) breaks inside the header block itself (`1 ≤ j < H`, the headers did not
fit on one page) and is then the unseeded consecutive run from `j` — the
seeding guard `row_idx >= header_rows` skips such pages (see the
counterexample). -/
theorem C4_header_seeding_amended (t : Table) (layout : TableLayout) (start_y : ℚ)
    (hrep : t.style.repeat_headers = true) (hH : 0 < t.header_rows) :
    ∀ g ∈ (draw_table_paginated_groups t layout start_y).1.tail,
      cont_group_ok t.header_rows g := by
  unfold draw_table_paginated_groups
  exact paginate_shape t _ _ hrep hH _ 0 _ [] [] (by simp) (Or.inl ⟨rfl, rfl⟩)

theorem C4_header_seeding_amended_witness :
    (tbl_pg 1 true).style.repeat_headers = true ∧ 0 < (tbl_pg 1 true).header_rows ∧
    ∀ g ∈ (draw_table_paginated_groups (tbl_pg 1 true) (hl [10, 10]) 25).1.tail,
      cont_group_ok (tbl_pg 1 true).header_rows g :=
  ⟨rfl, by decide, C4_header_seeding_amended (tbl_pg 1 true) (hl [10, 10]) 25 rfl (by decide)⟩

/-! ## Claim C2: wrapping and content preservation -/

theorem utf8_encode_char_length (c : Char) : (utf8_encode_char c).length = utf8_size c := by
  unfold utf8_encode_char utf8_size
  dsimp only
  split_ifs <;> rfl

theorem utf8_encode_append (a b : List Char) :
    utf8_encode (a ++ b) = utf8_encode a ++ utf8_encode b := by
  simp [utf8_encode]

theorem utf8_len_encode (l : List Char) : (utf8_encode l).length = utf8_len l := by
  induction l with
  | nil => rfl
  | cons c rest ih =>
    simp only [utf8_encode, List.map_cons, List.flatten_cons, List.length_append,
      utf8_encode_char_length, utf8_len, List.sum_cons]
    simp only [utf8_encode, utf8_len] at ih
    omega

/-- The hard-split byte offset always falls on a code-point boundary: the
byte string splits into the encodings of a character-level prefix/suffix. -/
theorem split_byte_boundary (w : List Char) (n : Nat) :
    (utf8_encode w).take (split_byte_of w n) = utf8_encode (w.take n) ∧
    (utf8_encode w).drop (split_byte_of w n) = utf8_encode (w.drop n) := by
  have hsb : split_byte_of w n = (utf8_encode (w.take n)).length := by
    unfold split_byte_of
    rw [utf8_len_encode]
    split
    · rfl
    · next h =>
      push_neg at h
      rw [List.take_of_length_le h]
  have hw : utf8_encode w = utf8_encode (w.take n) ++ utf8_encode (w.drop n) := by
    rw [← utf8_encode_append, List.take_append_drop]
  constructor
  · rw [hsb, hw]
    exact List.take_left _ _
  · rw [hsb, hw]
    exact List.drop_left _ _

theorem split_long_word_join (maxC : Nat) (w : List Char) :
    (split_long_word maxC w).1.flatten ++ (split_long_word maxC w).2 = w := by
  rw [split_long_word]
  split
  · simp only [List.flatten_cons, List.append_assoc]
    rw [split_long_word_join maxC (w.drop maxC)]
    exact List.take_append_drop maxC w
  · simp
termination_by w.length
decreasing_by
  simp only [List.length_drop]
  omega

theorem split_long_word_rem_ne (maxC : Nat) (w : List Char) (hw : w ≠ []) :
    (split_long_word maxC w).2 ≠ [] := by
  rw [split_long_word]
  split
  · next hcond =>
    apply split_long_word_rem_ne maxC (w.drop maxC)
    intro hd
    have := congrArg List.length hd
    simp only [List.length_drop, List.length_nil] at this
    omega
  · simpa using hw
termination_by w.length
decreasing_by
  simp only [List.length_drop]
  omega

theorem filter_dropWhile_ws (l : List Char) :
    (l.dropWhile is_whitespace).filter (fun x => !is_whitespace x) =
      l.filter (fun x => !is_whitespace x) := by
  induction l with
  | nil => rfl
  | cons c rest ih =>
    rw [List.dropWhile_cons]
    by_cases hc : is_whitespace c
    · rw [if_pos hc, ih, List.filter_cons]
      simp [hc]
    · rw [if_neg hc]

theorem filter_trim (l : List Char) :
    (trim l).filter (fun x => !is_whitespace x) = l.filter (fun x => !is_whitespace x) := by
  unfold trim
  rw [List.filter_reverse, filter_dropWhile_ws, List.filter_reverse, List.reverse_reverse,
    filter_dropWhile_ws]

theorem filter_eq_takeWhile_append (p : Char → Bool) (l : List Char) :
    l.filter p = l.takeWhile p ++ (l.dropWhile p).filter p := by
  induction l with
  | nil => rfl
  | cons c rest ih =>
    rw [List.filter_cons, List.takeWhile_cons, List.dropWhile_cons]
    by_cases hc : p c
    · simp only [hc, if_true, List.cons_append]
      rw [ih]
    · simp [hc]

theorem split_whitespace_flatten (l : List Char) :
    (split_whitespace l).flatten = l.filter (fun x => !is_whitespace x) := by
  cases l with
  | nil => simp [split_whitespace]
  | cons c rest =>
    rw [split_whitespace]
    by_cases hc : is_whitespace c
    · rw [if_pos hc, split_whitespace_flatten rest, List.filter_cons]
      simp [hc]
    · rw [if_neg hc, List.flatten_cons,
        split_whitespace_flatten (rest.dropWhile (fun x => !is_whitespace x)),
        List.filter_cons]
      simp only [hc, Bool.not_false, if_true, List.cons_append, List.cons.injEq, true_and]
      exact (filter_eq_takeWhile_append _ rest).symm
termination_by l.length
decreasing_by
  all_goals
    have hle : ∀ (l : List Char), (l.dropWhile (fun x => !is_whitespace x)).length ≤ l.length := by
      intro l
      induction l with
      | nil => simp
      | cons a t ih =>
        rw [List.dropWhile_cons]
        split
        · exact Nat.le_succ_of_le ih
        · exact Nat.le_refl _
    simp only [List.length_cons]
    first
    | exact Nat.lt_succ_of_le (hle _)
    | exact Nat.lt_succ_self _

theorem filter_nws_space :
    ([' '] : List Char).filter (fun x => !is_whitespace x) = [] := by
  decide

theorem filter_nws_space_cons (w : List Char) :
    (' ' :: w).filter (fun x => !is_whitespace x) = w.filter (fun x => !is_whitespace x) := by
  rw [List.filter_cons]
  simp +decide [is_whitespace]

theorem wrap_word_step_inv (maxC : Nat) (st : WrapSt) (w : List Char) (h : wrap_st_ok st) :
    wrap_st_ok (wrap_word_step maxC st w) := by
  unfold wrap_st_ok at h ⊢
  unfold wrap_word_step
  dsimp only
  split_ifs <;> simp_all [List.length_append] <;> omega

theorem wrap_word_step_content (maxC : Nat) (st : WrapSt) (w : List Char)
    (h : wrap_st_ok st) :
    wrap_st_content (wrap_word_step maxC st w) =
      wrap_st_content st ++ w.filter (fun x => !is_whitespace x) := by
  unfold wrap_st_ok at h
  unfold wrap_st_content wrap_word_step
  dsimp only
  by_cases hlong : maxC < w.length
  · have hwne : w ≠ [] := by
      intro hc
      rw [hc] at hlong
      simp at hlong
    have hp : (split_long_word maxC w).2 ≠ [] := split_long_word_rem_ne maxC w hwne
    rw [if_pos hlong, if_pos hp]
    dsimp only
    by_cases hflush : 0 < st.current_length ∧ maxC < st.current_length + 1 + w.length
    · rw [if_pos hflush]
      dsimp only
      rw [List.append_assoc, List.flatten_append, List.flatten_append]
      simp only [List.flatten_cons, List.flatten_nil, List.append_nil, List.append_assoc]
      rw [split_long_word_join maxC w]
      simp only [List.filter_append, filter_trim, List.append_assoc]
    · rw [if_neg hflush]
      dsimp only
      have hcur : st.current_line = [] := by
        rcases Nat.eq_zero_or_pos st.current_length with h0 | hpos
        · rw [← h, List.length_eq_zero] at h0
          exact h0
        · exact absurd ⟨hpos, by omega⟩ hflush
      rw [List.flatten_append]
      simp only [List.flatten_cons, List.flatten_nil, List.append_nil, List.append_assoc]
      rw [split_long_word_join maxC w, hcur]
      simp [List.filter_append]
  · rw [if_neg hlong]
    by_cases hflush : 0 < st.current_length ∧ maxC < st.current_length + 1 + w.length
    · rw [if_pos hflush]
      dsimp only
      rw [List.flatten_append]
      simp only [List.flatten_cons, List.flatten_nil, List.append_nil]
      simp only [List.filter_append, filter_trim, List.append_assoc]
    · rw [if_neg hflush]
      dsimp only
      by_cases hcur : st.current_line = []
      · simp [hcur, List.filter_append]
      · simp only [hcur, if_false]
        rw [List.append_assoc, List.singleton_append]
        simp only [List.filter_append, filter_nws_space_cons, List.append_assoc]

theorem wrap_fold_content (maxC : Nat) (ws : List (List Char)) :
    ∀ st, wrap_st_ok st →
      wrap_st_content (ws.foldl (wrap_word_step maxC) st) =
        wrap_st_content st ++ (ws.flatten).filter (fun x => !is_whitespace x) ∧
      wrap_st_ok (ws.foldl (wrap_word_step maxC) st) := by
  induction ws with
  | nil =>
    intro st hst
    simp [hst]
  | cons w rest ih =>
    intro st hst
    rw [List.foldl_cons]
    obtain ⟨hc, hinv⟩ := ih (wrap_word_step maxC st w) (wrap_word_step_inv maxC st w hst)
    refine ⟨?_, hinv⟩
    rw [hc, wrap_word_step_content maxC st w hst]
    simp [List.filter_append, List.append_assoc]

theorem wrap_segment_content (maxC : Nat) (seg : List Char) :
    ((wrap_segment maxC seg).flatten).filter (fun x => !is_whitespace x) =
      seg.filter (fun x => !is_whitespace x) := by
  unfold wrap_segment
  by_cases h1 : seg = []
  · simp [h1]
  · rw [if_neg h1]
    by_cases h2 : split_whitespace seg = []
    · rw [if_pos h2]
      have : seg.filter (fun x => !is_whitespace x) = [] := by
        rw [← split_whitespace_flatten, h2]
        rfl
      simp [this]
    · rw [if_neg h2]
      obtain ⟨hc, _⟩ := wrap_fold_content maxC (split_whitespace seg) ⟨[], [], 0⟩ rfl
      have hcontent0 : wrap_st_content ⟨[], [], 0⟩ = [] := rfl
      rw [hcontent0, List.nil_append] at hc
      have hwords : ((split_whitespace seg).flatten).filter (fun x => !is_whitespace x) =
          seg.filter (fun x => !is_whitespace x) := by
        rw [split_whitespace_flatten, List.filter_filter]
        apply List.filter_congr
        intro a _
        cases is_whitespace a <;> rfl
      rw [hwords] at hc
      set st := (split_whitespace seg).foldl (wrap_word_step maxC) ⟨[], [], 0⟩ with hstdef
      unfold wrap_st_content at hc
      by_cases h3 : trim st.current_line ≠ []
      · rw [if_pos h3]
        rw [List.flatten_append]
        simp only [List.flatten_cons, List.flatten_nil, List.append_nil]
        rw [List.filter_append, filter_trim, ← List.filter_append]
        exact hc
      · rw [if_neg h3]
        push_neg at h3
        have hcur : st.current_line.filter (fun x => !is_whitespace x) = [] := by
          rw [← filter_trim, h3]
          rfl
        rw [List.filter_append, hcur, List.append_nil] at hc
        exact hc

theorem snl_flatten_filter (l : List Char) :
    ((split_newlines l).flatten).filter (fun x => !is_whitespace x) =
      l.filter (fun x => !is_whitespace x) := by
  induction l with
  | nil => rfl
  | cons c rest ih =>
    rw [split_newlines]
    by_cases hc : c = '\n'
    · rw [if_pos hc]
      simp only [List.flatten_cons, List.nil_append]
      rw [ih, List.filter_cons]
      have : is_whitespace c = true := by
        rw [hc]
        decide
      simp [this]
    · rw [if_neg hc]
      rcases hr : split_newlines rest with _ | ⟨s, tl⟩
      · exact absurd hr (by
          cases rest with
          | nil => simp [split_newlines]
          | cons d ds =>
            rw [split_newlines]
            by_cases hd : d = '\n'
            · simp [hd]
            · rw [if_neg hd]
              rcases hq : split_newlines ds with _ | _ <;> simp)
      · rw [hr] at ih
        simp only [List.flatten_cons] at ih ⊢
        rw [List.cons_append, List.filter_cons, List.filter_cons]
        cases hws : is_whitespace c <;> simp [hws, ih]

/-- The per-segment content equation lifted over a list of segments. -/
theorem map_flatten_filter (f : List Char → List (List Char))
    (hsame : ∀ s, ((f s).flatten).filter (fun x => !is_whitespace x) =
      s.filter (fun x => !is_whitespace x)) :
    ∀ (ls : List (List Char)),
      (((ls.map f).flatten).flatten).filter (fun x => !is_whitespace x) =
        (ls.flatten).filter (fun x => !is_whitespace x) := by
  intro ls
  induction ls with
  | nil => rfl
  | cons s rest ih =>
    simp only [List.map_cons, List.flatten_cons, List.flatten_append, List.filter_append]
    rw [hsame s, ih]

theorem wrap_text_filter (text : List Char) (mw fs : ℚ) :
    ((wrap_text text mw fs).flatten).filter (fun x => !is_whitespace x) =
      text.filter (fun x => !is_whitespace x) := by
  unfold wrap_text
  by_cases h1 : text = []
  · simp [h1]
  · rw [if_neg h1]
    unfold wrap_text_chars
    by_cases h2 : max_chars_per_line mw fs = 0
    · rw [if_pos h2]
      simp
    · rw [if_neg h2]
      dsimp only
      have hchain : ((((split_newlines text).map
          (wrap_segment (max_chars_per_line mw fs))).flatten).flatten).filter
            (fun x => !is_whitespace x) = text.filter (fun x => !is_whitespace x) := by
        rw [map_flatten_filter _ (wrap_segment_content (max_chars_per_line mw fs)),
          snl_flatten_filter]
      by_cases h3 : ((split_newlines text).map (wrap_segment (max_chars_per_line mw fs))).flatten = []
      · rw [if_pos h3]
        rw [h3] at hchain
        simp only [List.flatten_nil, List.filter_nil] at hchain
        simp [← hchain]
      · rw [if_neg h3]
        exact hchain

theorem wtm_split_loop_join_aux (m : FontMetrics) (fs maxW : ℚ) :
    ∀ (N : Nat) (rem : List Char), rem.length ≤ N →
      (wtm_split_loop m fs maxW rem).1.flatten ++ (wtm_split_loop m fs maxW rem).2 = rem := by
  intro N
  induction N with
  | zero =>
    intro rem hlen
    have hnil : rem = [] := by
      cases rem with
      | nil => rfl
      | cons c t => simp at hlen
    rw [hnil, wtm_split_loop]
    simp
  | succ n ih =>
    intro rem hlen
    rw [wtm_split_loop]
    split
    · next hrem =>
      simp [hrem]
    · next hrem =>
      have hk1 : 1 ≤ at_least_one (split_count_go m fs maxW rem 0 0) := by
        unfold at_least_one
        split <;> omega
      have hpos : 0 < rem.length := List.length_pos.mpr hrem
      by_cases hd : rem.drop (at_least_one (split_count_go m fs maxW rem 0 0)) = []
      · rw [if_pos hd]
        dsimp only
        simp only [List.flatten_nil, List.nil_append]
        conv_rhs =>
          rw [← List.take_append_drop (at_least_one (split_count_go m fs maxW rem 0 0)) rem]
        rw [hd, List.append_nil]
      · rw [if_neg hd]
        dsimp only
        rw [List.flatten_cons, List.append_assoc,
          ih (rem.drop (at_least_one (split_count_go m fs maxW rem 0 0)))
            (by simp only [List.length_drop]; omega)]
        exact List.take_append_drop _ rem

theorem wtm_split_loop_join (m : FontMetrics) (fs maxW : ℚ) (rem : List Char) :
    (wtm_split_loop m fs maxW rem).1.flatten ++ (wtm_split_loop m fs maxW rem).2 = rem :=
  wtm_split_loop_join_aux m fs maxW rem.length rem (le_refl _)

theorem wtm_split_loop_last_ne_aux (m : FontMetrics) (fs maxW : ℚ) :
    ∀ (N : Nat) (rem : List Char), rem.length ≤ N → rem ≠ [] →
      (wtm_split_loop m fs maxW rem).2 ≠ [] := by
  intro N
  induction N with
  | zero =>
    intro rem hlen hne
    cases rem with
    | nil => exact absurd rfl hne
    | cons c t => simp at hlen
  | succ n ih =>
    intro rem hlen hne
    rw [wtm_split_loop]
    split
    · next hrem => exact absurd hrem hne
    · next hrem =>
      have hk1 : 1 ≤ at_least_one (split_count_go m fs maxW rem 0 0) := by
        unfold at_least_one
        split <;> omega
      have hpos : 0 < rem.length := List.length_pos.mpr hrem
      by_cases hd : rem.drop (at_least_one (split_count_go m fs maxW rem 0 0)) = []
      · rw [if_pos hd]
        dsimp only
        intro hc
        rcases List.take_eq_nil_iff.mp hc with h | h
        · omega
        · exact hrem h
      · rw [if_neg hd]
        dsimp only
        exact ih _ (by simp only [List.length_drop]; omega) hd

theorem wtm_split_loop_last_ne (m : FontMetrics) (fs maxW : ℚ) (rem : List Char)
    (hne : rem ≠ []) : (wtm_split_loop m fs maxW rem).2 ≠ [] :=
  wtm_split_loop_last_ne_aux m fs maxW rem.length rem (le_refl _) hne

theorem wtm_word_step_inv (m : FontMetrics) (fs maxW : ℚ) (st : WrapStM) (w : List Char)
    (hst : wtm_st_ok st) (hw : w ≠ [])
    (htw : ∀ s : List Char, s ≠ [] → 0 < m.text_width s fs)
    (hsw : 0 ≤ m.char_width ' ' fs) :
    wtm_st_ok (wtm_word_step m fs maxW st w) := by
  obtain ⟨h1, h2⟩ := hst
  have htww := htw w hw
  unfold wtm_st_ok wtm_word_step
  dsimp only
  by_cases hlong : maxW < m.text_width w fs
  · rw [if_pos hlong, if_neg hw]
    dsimp only
    have hlast := wtm_split_loop_last_ne m fs maxW w hw
    exact ⟨le_of_lt (htw _ hlast), fun _ => htw _ hlast⟩
  · rw [if_neg hlong]
    by_cases hflush : 0 < st.current_width ∧
        maxW < st.current_width + m.char_width ' ' fs + m.text_width w fs
    · rw [if_pos hflush]
      exact ⟨le_of_lt htww, fun _ => htww⟩
    · rw [if_neg hflush]
      dsimp only
      by_cases hcur : st.current_line = []
      · simp only [hcur, if_true]
        exact ⟨by linarith, fun _ => by linarith⟩
      · simp only [hcur, if_false]
        exact ⟨by linarith, fun _ => by linarith⟩

theorem wtm_word_step_content (m : FontMetrics) (fs maxW : ℚ) (st : WrapStM) (w : List Char)
    (hst : wtm_st_ok st) (hw : w ≠ [])
    (htw : ∀ s : List Char, s ≠ [] → 0 < m.text_width s fs)
    (hsw : 0 ≤ m.char_width ' ' fs) :
    wtm_st_content (wtm_word_step m fs maxW st w) =
      wtm_st_content st ++ w.filter (fun x => !is_whitespace x) := by
  obtain ⟨h1, h2⟩ := hst
  have htww := htw w hw
  unfold wtm_st_content wtm_word_step
  dsimp only
  by_cases hlong : maxW < m.text_width w fs
  · rw [if_pos hlong, if_neg hw]
    dsimp only
    by_cases hflush : 0 < st.current_width ∧
        maxW < st.current_width + m.char_width ' ' fs + m.text_width w fs
    · rw [if_pos hflush]
      dsimp only
      rw [List.append_assoc, List.flatten_append, List.flatten_append]
      simp only [List.flatten_cons, List.flatten_nil, List.append_nil, List.append_assoc]
      rw [wtm_split_loop_join m fs maxW w]
      simp only [List.filter_append, filter_trim, List.append_assoc]
    · rw [if_neg hflush]
      dsimp only
      have hcur : st.current_line = [] := by
        by_contra hc
        exact hflush ⟨h2 hc, by linarith⟩
      rw [List.flatten_append]
      simp only [List.flatten_cons, List.flatten_nil, List.append_nil, List.append_assoc]
      rw [wtm_split_loop_join m fs maxW w, hcur]
      simp [List.filter_append]
  · rw [if_neg hlong]
    by_cases hflush : 0 < st.current_width ∧
        maxW < st.current_width + m.char_width ' ' fs + m.text_width w fs
    · rw [if_pos hflush]
      dsimp only
      rw [List.flatten_append]
      simp only [List.flatten_cons, List.flatten_nil, List.append_nil]
      simp only [List.filter_append, filter_trim, List.append_assoc]
    · rw [if_neg hflush]
      dsimp only
      by_cases hcur : st.current_line = []
      · simp [hcur, List.filter_append]
      · simp only [hcur, if_false]
        rw [List.append_assoc, List.singleton_append]
        simp only [List.filter_append, filter_nws_space_cons, List.append_assoc]

theorem wtm_fold_content (m : FontMetrics) (fs maxW : ℚ) (ws : List (List Char))
    (htw : ∀ s : List Char, s ≠ [] → 0 < m.text_width s fs)
    (hsw : 0 ≤ m.char_width ' ' fs) :
    ∀ st, wtm_st_ok st → (∀ w ∈ ws, w ≠ []) →
      wtm_st_content (ws.foldl (wtm_word_step m fs maxW) st) =
        wtm_st_content st ++ (ws.flatten).filter (fun x => !is_whitespace x) ∧
      wtm_st_ok (ws.foldl (wtm_word_step m fs maxW) st) := by
  induction ws with
  | nil =>
    intro st hst _
    simp [hst]
  | cons w rest ih =>
    intro st hst hne
    rw [List.foldl_cons]
    have hwne : w ≠ [] := hne w (by simp)
    obtain ⟨hc, hinv⟩ := ih (wtm_word_step m fs maxW st w)
      (wtm_word_step_inv m fs maxW st w hst hwne htw hsw)
      (fun x hx => hne x (by simp [hx]))
    refine ⟨?_, hinv⟩
    rw [hc, wtm_word_step_content m fs maxW st w hst hwne htw hsw]
    simp [List.filter_append, List.append_assoc]

theorem split_whitespace_mem_ne (l : List Char) : ∀ w ∈ split_whitespace l, w ≠ [] := by
  cases l with
  | nil => simp [split_whitespace]
  | cons c rest =>
    rw [split_whitespace]
    by_cases hc : is_whitespace c
    · rw [if_pos hc]
      exact split_whitespace_mem_ne rest
    · rw [if_neg hc]
      intro w hw
      rw [List.mem_cons] at hw
      rcases hw with hw | hw
      · rw [hw]
        simp
      · exact split_whitespace_mem_ne _ w hw
termination_by l.length
decreasing_by
  all_goals
    have hle : ∀ (l : List Char), (l.dropWhile (fun x => !is_whitespace x)).length ≤ l.length := by
      intro l
      induction l with
      | nil => simp
      | cons a t ih =>
        rw [List.dropWhile_cons]
        split
        · exact Nat.le_succ_of_le ih
        · exact Nat.le_refl _
    simp only [List.length_cons]
    first
    | exact Nat.lt_succ_of_le (hle _)
    | exact Nat.lt_succ_self _

theorem wtm_segment_content (m : FontMetrics) (fs maxW : ℚ) (seg : List Char)
    (htw : ∀ s : List Char, s ≠ [] → 0 < m.text_width s fs)
    (hsw : 0 ≤ m.char_width ' ' fs) :
    ((wrap_segment_with_metrics m fs maxW seg).flatten).filter (fun x => !is_whitespace x) =
      seg.filter (fun x => !is_whitespace x) := by
  unfold wrap_segment_with_metrics
  by_cases h1 : seg = []
  · simp [h1]
  · rw [if_neg h1]
    by_cases h2 : split_whitespace seg = []
    · rw [if_pos h2]
      have : seg.filter (fun x => !is_whitespace x) = [] := by
        rw [← split_whitespace_flatten, h2]
        rfl
      simp [this]
    · rw [if_neg h2]
      obtain ⟨hc, _⟩ := wtm_fold_content m fs maxW (split_whitespace seg) htw hsw ⟨[], [], 0⟩
        (by refine ⟨le_refl 0, ?_⟩; intro h; exact absurd rfl h)
        (split_whitespace_mem_ne seg)
      have hcontent0 : wtm_st_content ⟨[], [], 0⟩ = [] := rfl
      rw [hcontent0, List.nil_append] at hc
      have hwords : ((split_whitespace seg).flatten).filter (fun x => !is_whitespace x) =
          seg.filter (fun x => !is_whitespace x) := by
        rw [split_whitespace_flatten, List.filter_filter]
        apply List.filter_congr
        intro a _
        cases is_whitespace a <;> rfl
      rw [hwords] at hc
      set st := (split_whitespace seg).foldl (wtm_word_step m fs maxW) ⟨[], [], 0⟩ with hstdef
      unfold wtm_st_content at hc
      by_cases h3 : trim st.current_line ≠ []
      · rw [if_pos h3]
        rw [List.flatten_append]
        simp only [List.flatten_cons, List.flatten_nil, List.append_nil]
        rw [List.filter_append, filter_trim, ← List.filter_append]
        exact hc
      · rw [if_neg h3]
        push_neg at h3
        have hcur : st.current_line.filter (fun x => !is_whitespace x) = [] := by
          rw [← filter_trim, h3]
          rfl
        rw [List.filter_append, hcur, List.append_nil] at hc
        exact hc

theorem wrap_text_with_metrics_filter (text : List Char) (mw fs : ℚ) (m : FontMetrics)
    (htw : ∀ s : List Char, s ≠ [] → 0 < m.text_width s fs)
    (hsw : 0 ≤ m.char_width ' ' fs) :
    ((wrap_text_with_metrics text mw fs m).flatten).filter (fun x => !is_whitespace x) =
      text.filter (fun x => !is_whitespace x) := by
  unfold wrap_text_with_metrics
  by_cases h1 : text = []
  · simp [h1]
  · rw [if_neg h1]
    dsimp only
    have hchain : ((((split_newlines text).map
        (wrap_segment_with_metrics m fs mw)).flatten).flatten).filter
          (fun x => !is_whitespace x) = text.filter (fun x => !is_whitespace x) := by
      rw [map_flatten_filter _ (fun s => wtm_segment_content m fs mw s htw hsw),
        snl_flatten_filter]
    by_cases h3 : ((split_newlines text).map (wrap_segment_with_metrics m fs mw)).flatten = []
    · rw [if_pos h3]
      rw [h3] at hchain
      simp only [List.flatten_nil, List.filter_nil] at hchain
      simp [← hchain]
    · rw [if_neg h3]
      exact hchain

/-- C2 is false as stated: wrapping is not lossless on whitespace. The
input `"a  b"` (two interior spaces) fits on one line of budget 20, yet
`wrap_text` rebuilds the line from `split_whitespace` words and yields
`"a b"`; no choice of separators at wrap points recovers the original. -/
theorem C2_losslessness_counterexample :
    ¬ wrap_lossless_at ("a  b".toList) 100 10 := by
  intro hcl
  obtain ⟨seps, hlen, _, hjoin⟩ := hcl
  have hmc : max_chars_per_line 100 10 = 20 := by
    norm_num [max_chars_per_line, rat_to_usize, defaultCharWidthFrac]
    decide
  have h1 : split_newlines "a  b".toList = ["a  b".toList] := snl_no_nl _ (by decide)
  have h2 : split_whitespace "a  b".toList = [['a'], ['b']] := by
    simp +decide [split_whitespace, is_whitespace]
  have h3 : wrap_segment 20 "a  b".toList = [['a', ' ', 'b']] := by
    unfold wrap_segment
    rw [if_neg (by decide)]
    dsimp only
    rw [h2]
    rw [if_neg (by decide)]
    simp +decide [wrap_word_step, trim, is_whitespace]
  have hw : wrap_text "a  b".toList 100 10 = [['a', ' ', 'b']] := by
    unfold wrap_text
    rw [if_neg (by decide), hmc]
    unfold wrap_text_chars
    rw [if_neg (by decide)]
    dsimp only
    rw [h1]
    simp only [List.map_cons, List.map_nil, h3, List.flatten_cons, List.flatten_nil,
      List.append_nil]
    rw [if_neg (by decide)]
  rw [hw] at hlen hjoin
  have hseps : seps = [] := by
    cases seps with
    | nil => rfl
    | cons a t =>
      simp only [List.length_cons, List.length_nil] at hlen
      omega
  have hint : interleave_sep [['a', ' ', 'b']] ([] : List (List Char)) = ['a', ' ', 'b'] := rfl
  rw [hseps, hint] at hjoin
  exact absurd hjoin (by decide)

/-- C2 (amended): wrapping preserves exactly the non-whitespace characters,
in order — interior whitespace runs are collapsed, so full losslessness
fails (see the counterexample). For `wrap_text` this holds unconditionally;
for `wrap_text_with_metrics` it holds whenever the metrics assign positive
width to nonempty strings and nonnegative width to the space character.
The hard-split of an over-long word is itself lossless at the character
level, and every hard-split byte offset falls on a code-point boundary:
the UTF-8 byte string splits into the encodings of a character-level
prefix and suffix, never inside a multi-byte code point. -/
theorem C2_wrapping_amended :
    (∀ (text : List Char) (mw fs : ℚ),
      ((wrap_text text mw fs).flatten).filter (fun x => !is_whitespace x) =
        text.filter (fun x => !is_whitespace x)) ∧
    (∀ (text : List Char) (mw fs : ℚ) (m : FontMetrics),
      (∀ s : List Char, s ≠ [] → 0 < m.text_width s fs) →
      0 ≤ m.char_width ' ' fs →
      ((wrap_text_with_metrics text mw fs m).flatten).filter (fun x => !is_whitespace x) =
        text.filter (fun x => !is_whitespace x)) ∧
    (∀ (maxC : Nat) (w : List Char),
      (split_long_word maxC w).1.flatten ++ (split_long_word maxC w).2 = w) ∧
    (∀ (w : List Char) (n : Nat),
      (utf8_encode w).take (split_byte_of w n) = utf8_encode (w.take n) ∧
      (utf8_encode w).drop (split_byte_of w n) = utf8_encode (w.drop n)) :=
  ⟨wrap_text_filter,
   fun text mw fs m htw hsw => wrap_text_with_metrics_filter text mw fs m htw hsw,
   split_long_word_join,
   split_byte_boundary⟩

theorem C2_wrapping_amended_witness :
    ((wrap_text_with_metrics "a b".toList 100 10 fm_const).flatten).filter
        (fun x => !is_whitespace x) = "a b".toList.filter (fun x => !is_whitespace x) :=
  C2_wrapping_amended.2.1 "a b".toList 100 10 fm_const
    (fun s hs => by
      have h : 0 < s.length := List.length_pos.mpr hs
      show 0 < (s.length : ℚ) * 5
      have h2 : (0 : ℚ) < (s.length : ℚ) := by exact_mod_cast h
      linarith)
    (by
      show (0 : ℚ) ≤ 5
      norm_num)

/-! ## Claim C7: ordering of the emitted instruction stream -/

theorem gen_cells_eq (t : Table) (layout : TableLayout) (hook : Option TaggedCellHook)
    (registry : Option ImageXObjects) (art : Bool) (row_idx : Nat) (row_y row_height : ℚ) :
    ∀ (cells : List Cell) (x : ℚ) (col : Nat),
      gen_cells t layout hook registry art row_idx row_y row_height cells x col =
        (((cell_positions layout cells x col).map
            (cell_body_objs t layout hook registry row_idx row_y row_height)).flatten,
         ((cell_positions layout cells x col).map
            (cell_override_objs layout art row_y row_height)).flatten) := by
  intro cells
  induction cells with
  | nil =>
    intro x col
    rfl
  | cons cell rest ih =>
    intro x col
    by_cases hcol : layout.column_widths.length ≤ col
    · simp only [gen_cells, cell_positions, if_pos hcol]
      rfl
    · simp only [gen_cells, cell_positions, if_neg hcol]
      rw [ih]
      simp only [List.map_cons, List.flatten_cons]
      simp [cell_body_objs, cell_override_objs, List.append_assoc]

theorem gen_rows_eq (t : Table) (layout : TableLayout) (hook : Option TaggedCellHook)
    (registry : Option ImageXObjects) (art : Bool) (start_x : ℚ) :
    ∀ (irs : List (Nat × Row)) (y : ℚ),
      gen_rows t layout hook registry art start_x irs y =
        (((row_positions layout irs y).map
            (row_body_objs t layout hook registry art start_x)).flatten,
         ((row_positions layout irs y).map (row_override_objs layout art start_x)).flatten) := by
  intro irs
  induction irs with
  | nil =>
    intro y
    rfl
  | cons ir rest ih =>
    intro y
    simp only [gen_rows, row_positions]
    rw [gen_cells_eq, ih]
    simp only [List.map_cons, List.flatten_cons]
    simp [row_body_objs, row_override_objs, List.append_assoc]

/-- C7 is false as stated: the border grid is emitted BEFORE the per-cell
border overrides, not after. For the one-cell fixture with a red left
border override and the default solid grid, the full stream ends with the
override's red stroke, so the grid is not a suffix of the stream. -/
theorem C7_grid_order_counterexample :
    ¬ List.IsSuffix (draw_table_borders tbl_border_override layout_1x1 (0, 50))
      (generate_table_operations tbl_border_override layout_1x1 (0, 50)
        Option.none Option.none) := by
  intro hsuf
  obtain ⟨p, hp⟩ := hsuf
  have hgrid : draw_table_borders tbl_border_override layout_1x1 (0, 50) =
      [Obj.name "RG".toList, .real 0, .real 0, .real 0, .name "w".toList, .real 1,
       .name "re".toList, .real 0, .real 20, .real 100, .real 30, .name "S".toList] := by
    norm_num [draw_table_borders, draw_table_borders_util, tbl_border_override, layout_1x1,
      default_table_style, set_stroke_style, draw_rectangle_stroke, border_horiz_lines,
      border_vert_lines, border_vert_cells, List.range_succ]
    intro h
    exact BorderStyle.noConfusion h
  have henum : tbl_border_override.rows.enum =
      [(0, (⟨[⟨[], some cs_red_left, 1, 1, false, []⟩], Option.none, Option.none⟩ : Row))] :=
    rfl
  have hstream : generate_table_operations tbl_border_override layout_1x1 (0, 50)
      Option.none Option.none =
      [Obj.name "q".toList, .name "re".toList, .real 0, .real 20, .real 100, .real 30,
       .name "W".toList, .name "n".toList, .name "Q".toList] ++
      [Obj.name "RG".toList, .real 0, .real 0, .real 0, .name "w".toList, .real 1,
       .name "re".toList, .real 0, .real 20, .real 100, .real 30, .name "S".toList] ++
      [Obj.name "RG".toList, .real 1, .real 0, .real 0, .name "w".toList, .real 2,
       .name "m".toList, .real 0, .real 50, .name "l".toList, .real 0, .real 20,
       .name "S".toList] := by
    simp only [generate_table_operations, henum]
    rw [hgrid]
    norm_num [gen_rows, gen_cells, tbl_border_override, layout_1x1, cs_red_left,
      default_table_style, maybe_artifact, calculate_cell_width, List.get?,
      draw_cell_text, draw_cell_text_operations, operations_to_objects,
      draw_cell_border_overrides, border_side_ops, set_stroke_style, draw_vertical_line]
    intro h
    exact BorderStyle.noConfusion h
  rw [hgrid, hstream] at hp
  have hlen := congrArg List.length hp
  simp only [List.length_append, List.length_cons, List.length_nil] at hlen
  have hplen : p.length = 22 := by omega
  have hdrop := congrArg (List.drop p.length) hp
  rw [List.drop_left, hplen] at hdrop
  exact absurd hdrop (by decide)

/-- C7 (amended): the emitted stream is ordered as the table background
fill, then per-row bodies (row background, then per-cell hook prologue,
cell background, text, images, hook epilogue), then the table border grid,
and LAST the per-cell border overrides — the grid precedes the overrides,
contrary to the claimed order. -/
theorem C7_emitter_order_amended (t : Table) (layout : TableLayout) (position : ℚ × ℚ)
    (hook : Option TaggedCellHook) (registry : Option ImageXObjects) :
    generate_table_operations t layout position hook registry =
      table_bg_objs t layout position hook.isSome ++
      ((row_positions layout t.rows.enum position.2).map
        (row_body_objs t layout hook registry hook.isSome position.1)).flatten ++
      maybe_artifact hook.isSome (draw_table_borders t layout position) ++
      ((row_positions layout t.rows.enum position.2).map
        (row_override_objs layout hook.isSome position.1)).flatten := by
  simp only [generate_table_operations, table_bg_objs]
  rw [gen_rows_eq]

end LopdfTable
